import Mathlib

/-!
# A model of `newterminal.cpp` (class `PokerMLInterface`)

The class is embedded as a record of its fields together with an explicit
world holding what the member functions touch outside the object: the unread
characters of `std::cin`, the number of `rand()` calls made so far, and a
trace of the requests the program has issued.

Conventions of the embedding.

* `std::string` is a `List Char`; the `char`s that matter (ranks, suits, white
  space, the letters `a`..`z`) are ASCII, and neither `std::toupper` nor
  `Char.toUpper` changes any other character.
* The arrays `playerHand[2]` and `communityCards[5]` are vectors of length 2
  and 5; every index the program uses is a constant within bounds.
* `double` amounts are exact rationals; `int` is `Int`.
* `rand()` is a sequence `rand : Nat → Nat`: its i-th call returns `rand i`.
* Text written to `std::cout` is not modelled.  The trace records instead the
  tokens examined by `getValidCard`, every assignment to `communityCardCount`
  made by `playHand` and `playBettingRounds`, and every call of
  `getMLDecision` with the object as it is at the call.
* Every `while (true)` prompt loop takes a bound on its iterations; `none`
  means that the bound was reached before the loop returned.
* Formatted extraction of numbers (`std::cin >> amount`, `std::cin >> value`)
  is library code and is a parameter of the model.
-/

set_option linter.unusedVariables false

/-- The record `struct MLDecision`. -/
structure MLDecision where
  action : String
  amount : ℚ
  reasoning : String
deriving DecidableEq, Repr

/-- The data members of `class PokerMLInterface`. -/
structure PokerMLInterface where
  playerHand : Mathlib.Vector (List Char) 2
  playerPot : ℚ
  opponentPots : List ℚ
  numOpponents : Int
  smallBlind : ℚ
  bigBlind : ℚ
  communityCards : Mathlib.Vector (List Char) 5
  communityCardCount : Int
  opponentCalls : List ℚ
  currentRound : String
deriving DecidableEq

/-- What the program asks of its environment, in the order it asks. -/
inductive Event where
  | cardRejected (token : List Char)
  | cardAccepted (card : List Char)
  | countAssigned (count : Int)
  | decisionRequest (snapshot : PokerMLInterface) (decision : MLDecision)
deriving DecidableEq

/-- The part of the process state outside the object. -/
structure World where
  cin : List Char
  randCalls : Nat
  log : List Event
deriving DecidableEq

/-- Formatted extraction of a `double` and of an `int` from the unread input:
the value when extraction succeeds, and the input left unread. -/
structure NumGet where
  extractDouble : List Char → Option ℚ × List Char
  extractInt : List Char → Option Int × List Char

namespace PokerMLInterface

/-- The C locale's `isspace`. -/
def isspace (c : Char) : Bool :=
  c == ' ' || c == '\t' || c == '\n' || c == '\x0b' || c == '\x0c' || c == '\r'

/-- `std::cin >> card` for a `std::string`: skip white space, then take the
characters up to the next white space.  When no character is left the
extraction fails and the string keeps its value. -/
def extractWord (card : List Char) (cin : List Char) : List Char × List Char :=
  let s := cin.dropWhile isspace
  if s = [] then (card, [])
  else (s.takeWhile (fun c => !isspace c), s.dropWhile (fun c => !isspace c))

/-- `clearInputStream`: the error flags are reset and the input is discarded
up to and including the next newline. -/
def clearInputStream (w : World) : World :=
  { w with cin := (w.cin.dropWhile (fun c => c != '\n')).drop 1 }

/-- `isValidCard`. -/
def isValidCard (card : List Char) : Bool :=
  if card.length ≠ 2 then false
  else
    let rank := (card.getD 0 ' ').toUpper
    let suit := (card.getD 1 ' ').toUpper
    let validRank := ('2' ≤ rank && rank ≤ '9') ||
                     rank == 'T' || rank == 'J' ||
                     rank == 'Q' || rank == 'K' || rank == 'A'
    let validSuit := suit == 'H' || suit == 'D' ||
                     suit == 'C' || suit == 'S'
    validRank && validSuit

/-- The loop of `getValidCard`; `card` is the local string, which survives
from one iteration to the next. -/
def getValidCardLoop : Nat → List Char → World → Option (List Char × World)
  | 0, _, _ => none
  | fuel + 1, card, w =>
    let r := extractWord card w.cin
    let card := r.1.map Char.toUpper
    let w := { w with cin := r.2 }
    if isValidCard card then
      some (card, { w with log := w.log ++ [Event.cardAccepted card] })
    else
      getValidCardLoop fuel card
        (clearInputStream { w with log := w.log ++ [Event.cardRejected card] })

/-- `getValidCard`. -/
def getValidCard (fuel : Nat) (w : World) : Option (List Char × World) :=
  getValidCardLoop fuel [] w

/-- `getValidAmount`. -/
def getValidAmount (N : NumGet) : Nat → ℚ → World → Option (ℚ × World)
  | 0, _, _ => none
  | fuel + 1, minAmount, w =>
    let r := N.extractDouble w.cin
    let w := { w with cin := r.2 }
    match r.1 with
    | some amount =>
      if amount ≥ minAmount then some (amount, w)
      else getValidAmount N fuel minAmount (clearInputStream w)
    | none => getValidAmount N fuel minAmount (clearInputStream w)

/-- `getValidInteger`. -/
def getValidInteger (N : NumGet) : Nat → Int → Int → World → Option (Int × World)
  | 0, _, _, _ => none
  | fuel + 1, minVal, maxVal, w =>
    let r := N.extractInt w.cin
    let w := { w with cin := r.2 }
    match r.1 with
    | some value =>
      if value ≥ minVal ∧ value ≤ maxVal then some (value, w)
      else getValidInteger N fuel minVal maxVal (clearInputStream w)
    | none => getValidInteger N fuel minVal maxVal (clearInputStream w)

/-- The body of `getMLDecision`, given the value `rand()` returned.  The two
thresholds are compared as rationals: `(r % 100) / 100.0 < 0.2` holds of the
doubles exactly when `r % 100 < 20`, and likewise for `0.6`. -/
def getMLDecision (self : PokerMLInterface) (randValue : Nat) : MLDecision :=
  let randomFactor : ℚ := ((randValue % 100 : Nat) : ℚ) / 100
  let potOdds : ℚ := self.bigBlind / self.playerPot
  if randomFactor < 2 / 10 then
    { action := "FOLD", amount := 0,
      reasoning := "Hand too weak for current pot odds" }
  else if randomFactor < 6 / 10 then
    { action := "CALL", amount := self.bigBlind,
      reasoning := "Decent hand, calling to see next card" }
  else
    { action := "RAISE", amount := self.bigBlind * (2 + randomFactor),
      reasoning := "Strong hand detected, raising for value/bluff" }

/-- A call of `getMLDecision` in its context: the call draws the next value of
`rand()`, and the trace records the object as it is at the call together with
the decision returned. -/
def requestDecision (rand : Nat → Nat) (self : PokerMLInterface) (w : World) :
    MLDecision × World :=
  let decision := getMLDecision self (rand w.randCalls)
  (decision, { w with randCalls := w.randCalls + 1,
                      log := w.log ++ [Event.decisionRequest self decision] })

/-- The assignment `communityCardCount = count`, recorded in the trace. -/
def assignCount (count : Int) (self : PokerMLInterface) (w : World) :
    PokerMLInterface × World :=
  ({ self with communityCardCount := count },
   { w with log := w.log ++ [Event.countAssigned count] })

/-- The loop `for (int i = 0; i < numOpponents; i++)` of `setupGame` and of
`playHand`, which appends one amount read by `getValidAmount` per opponent to
a vector; `n` is the number of iterations left. -/
def collectAmounts (N : NumGet) (fuel : Nat) :
    Nat → List ℚ → World → Option (List ℚ × World)
  | 0, amounts, w => some (amounts, w)
  | n + 1, amounts, w =>
    match getValidAmount N fuel 0 w with
    | none => none
    | some r => collectAmounts N fuel n (amounts ++ [r.1]) r.2

/-- `setupGame`. -/
def setupGame (N : NumGet) (fuel : Nat) (self : PokerMLInterface) (w : World) :
    Option (PokerMLInterface × World) :=
  (getValidCard fuel w).bind fun c =>
  let self := { self with playerHand := self.playerHand.set 0 c.1 }
  (getValidCard fuel c.2).bind fun c =>
  let self := { self with playerHand := self.playerHand.set 1 c.1 }
  (getValidAmount N fuel 0 c.2).bind fun a =>
  let self := { self with playerPot := a.1 }
  (getValidInteger N fuel 1 8 a.2).bind fun n =>
  let self := { self with numOpponents := n.1 }
  let self := { self with opponentPots := [] }
  (collectAmounts N fuel self.numOpponents.toNat self.opponentPots n.2).bind fun l =>
  let self := { self with opponentPots := l.1 }
  (getValidAmount N fuel 0 l.2).bind fun a =>
  let self := { self with smallBlind := a.1 }
  (getValidAmount N fuel 0 a.2).bind fun a =>
  let self := { self with bigBlind := a.1 }
  some (self, a.2)

/-- The code of `playBettingRounds` from the comment `// River` to the end. -/
def riverSection (rand : Nat → Nat) (fuel : Nat) (self : PokerMLInterface) (w : World) :
    Option (PokerMLInterface × World) :=
  let self := { self with currentRound := "River" }
  (getValidCard fuel w).bind fun c =>
  let self := { self with communityCards := self.communityCards.set 4 c.1 }
  let s := assignCount 5 self c.2
  let d := requestDecision rand s.1 s.2
  some (s.1, d.2)

/-- The code of `playBettingRounds` from the comment `// Turn` to the end. -/
def turnSection (rand : Nat → Nat) (fuel : Nat) (self : PokerMLInterface) (w : World) :
    Option (PokerMLInterface × World) :=
  let self := { self with currentRound := "Turn" }
  (getValidCard fuel w).bind fun c =>
  let self := { self with communityCards := self.communityCards.set 3 c.1 }
  let s := assignCount 4 self c.2
  let d := requestDecision rand s.1 s.2
  if d.1.action = "FOLD" then some (s.1, d.2)
  else riverSection rand fuel s.1 d.2

/-- The code of `playBettingRounds` from the comment `// Flop` to the end; the
three iterations of the loop over the flop cards are written out. -/
def flopSection (rand : Nat → Nat) (fuel : Nat) (self : PokerMLInterface) (w : World) :
    Option (PokerMLInterface × World) :=
  let self := { self with currentRound := "Flop" }
  (getValidCard fuel w).bind fun c =>
  let self := { self with communityCards := self.communityCards.set 0 c.1 }
  (getValidCard fuel c.2).bind fun c =>
  let self := { self with communityCards := self.communityCards.set 1 c.1 }
  (getValidCard fuel c.2).bind fun c =>
  let self := { self with communityCards := self.communityCards.set 2 c.1 }
  let s := assignCount 3 self c.2
  let d := requestDecision rand s.1 s.2
  if d.1.action = "FOLD" then some (s.1, d.2)
  else turnSection rand fuel s.1 d.2

/-- `playBettingRounds`: the pre-flop code, followed by the flop, turn and river
sections above unless the decision is to fold. -/
def playBettingRounds (rand : Nat → Nat) (fuel : Nat) (self : PokerMLInterface)
    (w : World) : Option (PokerMLInterface × World) :=
  let self := { self with currentRound := "Pre-flop" }
  let d := requestDecision rand self w
  if d.1.action = "FOLD" then some (self, d.2)
  else flopSection rand fuel self d.2

/-- `playHand`. -/
def playHand (N : NumGet) (rand : Nat → Nat) (fuel : Nat) (self : PokerMLInterface)
    (w : World) : Option (PokerMLInterface × World) :=
  let s := assignCount 0 self w
  let self := { s.1 with opponentCalls := [] }
  (getValidCard fuel s.2).bind fun c =>
  let self := { self with playerHand := self.playerHand.set 0 c.1 }
  (getValidCard fuel c.2).bind fun c =>
  let self := { self with playerHand := self.playerHand.set 1 c.1 }
  (getValidAmount N fuel 0 c.2).bind fun a =>
  let self := { self with playerPot := a.1 }
  (collectAmounts N fuel self.numOpponents.toNat self.opponentCalls a.2).bind fun l =>
  let self := { self with opponentCalls := l.1 }
  playBettingRounds rand fuel self l.2

/-! ## Vocabulary of the statements -/

/-- The thirteen ranks. -/
def ranks : List Char := ['2', '3', '4', '5', '6', '7', '8', '9', 'T', 'J', 'Q', 'K', 'A']

/-- The four suits. -/
def suits : List Char := ['H', 'D', 'C', 'S']

/-- `tok` is a white-space separated token of `cin`: a nonempty run of
characters that are not white space, with white space or an end of the input
on either side. -/
def IsToken (cin tok : List Char) : Prop :=
  tok ≠ [] ∧ (∀ c ∈ tok, isspace c = false) ∧
    ∃ pre post, cin = pre ++ tok ++ post ∧
      (∀ c, pre.getLast? = some c → isspace c = true) ∧
      (∀ c, post.head? = some c → isspace c = true)

/-- The trace without the tokens that `getValidCard` rejected. -/
def observable : List Event → List Event
  | [] => []
  | Event.cardRejected _ :: es => observable es
  | Event.cardAccepted c :: es => Event.cardAccepted c :: observable es
  | Event.countAssigned n :: es => Event.countAssigned n :: observable es
  | Event.decisionRequest s d :: es => Event.decisionRequest s d :: observable es

/-- The cards `getValidCard` returned, in order. -/
def acceptedCards : List Event → List (List Char)
  | [] => []
  | Event.cardAccepted c :: es => c :: acceptedCards es
  | Event.cardRejected _ :: es => acceptedCards es
  | Event.countAssigned _ :: es => acceptedCards es
  | Event.decisionRequest _ _ :: es => acceptedCards es

/-- The tokens `getValidCard` examined and rejected, in order. -/
def rejectedTokens : List Event → List (List Char)
  | [] => []
  | Event.cardRejected t :: es => t :: rejectedTokens es
  | Event.cardAccepted _ :: es => rejectedTokens es
  | Event.countAssigned _ :: es => rejectedTokens es
  | Event.decisionRequest _ _ :: es => rejectedTokens es

/-- The calls of `getMLDecision`, in order: the object at the call and the
decision returned. -/
def decisions : List Event → List (PokerMLInterface × MLDecision)
  | [] => []
  | Event.decisionRequest s d :: es => (s, d) :: decisions es
  | Event.cardRejected _ :: es => decisions es
  | Event.cardAccepted _ :: es => decisions es
  | Event.countAssigned _ :: es => decisions es

/-- For every assignment to `communityCardCount`, in order: the value assigned,
the number of cards accepted before the assignment and the number of decisions
requested before it, counting from `cards` and `asked`. -/
def countHistory : Nat → Nat → List Event → List (Int × Nat × Nat)
  | _, _, [] => []
  | cards, asked, Event.countAssigned n :: es => (n, cards, asked) :: countHistory cards asked es
  | cards, asked, Event.cardAccepted _ :: es => countHistory (cards + 1) asked es
  | cards, asked, Event.decisionRequest _ _ :: es => countHistory cards (asked + 1) es
  | cards, asked, Event.cardRejected _ :: es => countHistory cards asked es

/-- The observable trace `L` of `riverSection` started on `self` when `rand()`
has been called `n` times, the object `final` it leaves, and the number `m` of
`rand()` calls at the end. -/
def RiverRun (rand : Nat → Nat) (n : Nat) (self : PokerMLInterface) (L : List Event)
    (final : PokerMLInterface) (m : Nat) : Prop :=
  ∃ c4, isValidCard c4 = true ∧
    let s := { self with currentRound := "River",
                         communityCards := self.communityCards.set 4 c4,
                         communityCardCount := 5 }
    L = [Event.cardAccepted c4, Event.countAssigned 5,
         Event.decisionRequest s (getMLDecision s (rand n))] ∧
      final = s ∧ m = n + 1

/-- The same for `turnSection`. -/
def TurnRun (rand : Nat → Nat) (n : Nat) (self : PokerMLInterface) (L : List Event)
    (final : PokerMLInterface) (m : Nat) : Prop :=
  ∃ c3, isValidCard c3 = true ∧
    let s := { self with currentRound := "Turn",
                         communityCards := self.communityCards.set 3 c3,
                         communityCardCount := 4 }
    let d := getMLDecision s (rand n)
    ∃ rest, L = [Event.cardAccepted c3, Event.countAssigned 4,
                 Event.decisionRequest s d] ++ rest ∧
      if d.action = "FOLD" then rest = [] ∧ final = s ∧ m = n + 1
      else RiverRun rand (n + 1) s rest final m

/-- The same for `flopSection`. -/
def FlopRun (rand : Nat → Nat) (n : Nat) (self : PokerMLInterface) (L : List Event)
    (final : PokerMLInterface) (m : Nat) : Prop :=
  ∃ c0 c1 c2, isValidCard c0 = true ∧ isValidCard c1 = true ∧ isValidCard c2 = true ∧
    let s := { self with currentRound := "Flop",
                         communityCards := ((self.communityCards.set 0 c0).set 1 c1).set 2 c2,
                         communityCardCount := 3 }
    let d := getMLDecision s (rand n)
    ∃ rest, L = [Event.cardAccepted c0, Event.cardAccepted c1, Event.cardAccepted c2,
                 Event.countAssigned 3, Event.decisionRequest s d] ++ rest ∧
      if d.action = "FOLD" then rest = [] ∧ final = s ∧ m = n + 1
      else TurnRun rand (n + 1) s rest final m

/-- The same for `playBettingRounds`. -/
def BettingRun (rand : Nat → Nat) (n : Nat) (self : PokerMLInterface) (L : List Event)
    (final : PokerMLInterface) (m : Nat) : Prop :=
  let s := { self with currentRound := "Pre-flop" }
  let d := getMLDecision s (rand n)
  ∃ rest, L = Event.decisionRequest s d :: rest ∧
    if d.action = "FOLD" then rest = [] ∧ final = s ∧ m = n + 1
    else FlopRun rand (n + 1) s rest final m

/-- The step from `w` to `after` adds to the trace events whose observable part
is `L`, the last of them not a rejected token, and calls `rand()` `k` times. -/
def Emits (w after : World) (L : List Event) (k : Nat) : Prop :=
  after.randCalls = w.randCalls + k ∧
    ∃ ev, after.log = w.log ++ ev ∧ observable ev = L ∧ ev.getLast? = L.getLast?

/-- The same for `playHand`: the two hole cards, the stack and the calls it
reads, then the betting rounds. -/
def HandRun (rand : Nat → Nat) (n : Nat) (self : PokerMLInterface) (L : List Event)
    (final : PokerMLInterface) (m : Nat) : Prop :=
  ∃ (c0 c1 : List Char) (pot : ℚ) (calls : List ℚ) (rest : List Event),
    isValidCard c0 = true ∧ isValidCard c1 = true ∧ 0 ≤ pot ∧
    calls.length = self.numOpponents.toNat ∧ (∀ x ∈ calls, 0 ≤ x) ∧
    L = [Event.countAssigned 0, Event.cardAccepted c0, Event.cardAccepted c1] ++ rest ∧
    BettingRun rand n
      { self with communityCardCount := 0, opponentCalls := calls,
                  playerHand := (self.playerHand.set 0 c0).set 1 c1,
                  playerPot := pot }
      rest final m

/-- The object `setupGame` leaves: the hole cards, stack, number of opponents,
opponent stacks and blinds it reads, and nothing else changed. -/
def SetupResult (self final : PokerMLInterface) : Prop :=
  ∃ (c0 c1 : List Char) (pot : ℚ) (n : Int) (pots : List ℚ) (small big : ℚ),
    isValidCard c0 = true ∧ isValidCard c1 = true ∧ 0 ≤ pot ∧ 1 ≤ n ∧ n ≤ 8 ∧
    pots.length = n.toNat ∧ (∀ x ∈ pots, 0 ≤ x) ∧ 0 ≤ small ∧ 0 ≤ big ∧
    final = { self with playerHand := (self.playerHand.set 0 c0).set 1 c1,
                        playerPot := pot, numOpponents := n, opponentPots := pots,
                        smallBlind := small, bigBlind := big }

/-- An input made of the given tokens, one per line. -/
def feed : List (List Char) → List Char
  | [] => []
  | t :: ts => t ++ '\n' :: feed ts

/-- The unread input of `w` is white space followed by the tokens `toks`, one
per line. -/
def Supply (w : World) (toks : List (List Char)) : Prop :=
  ∃ ws, (∀ c ∈ ws, isspace c = true) ∧ w.cin = ws ++ feed toks

/-- From `w` to `after` the first `j` tokens of the supply `toks` were read, each
was accepted as a card, no token was rejected, and `rand()` was called `k`
times. -/
def Fed (w after : World) (toks : List (List Char)) (j k : Nat) : Prop :=
  Supply after (toks.drop j) ∧ after.randCalls = w.randCalls + k ∧
    ∃ ev, after.log = w.log ++ ev ∧ rejectedTokens ev = [] ∧
      acceptedCards ev = (toks.take j).map (List.map Char.toUpper)

/-- The number of community cards `playBettingRounds` asks for from the turn on,
from the flop on, and in all, when `rand()` has been called `n` times: the
rounds stop at the first draw `r` with `r % 100 < 20`, a FOLD. -/
def turnCards (rand : Nat → Nat) (n : Nat) : Nat :=
  if rand n % 100 < 20 then 1 else 2

/-- See `turnCards`. -/
def flopCards (rand : Nat → Nat) (n : Nat) : Nat :=
  if rand n % 100 < 20 then 3 else 3 + turnCards rand (n + 1)

/-- See `turnCards`. -/
def roundsCards (rand : Nat → Nat) (n : Nat) : Nat :=
  if rand n % 100 < 20 then 0 else flopCards rand (n + 1)

/-! ## Concrete sessions and inputs -/

/-- The digits at the head of the input, read as a decimal number continuing
`acc`, and the input after them. -/
def readDigits : List Char → Nat → Nat × List Char
  | [], acc => (acc, [])
  | c :: cs, acc =>
    if c.isDigit then readDigits cs (10 * acc + (c.toNat - '0'.toNat)) else (acc, c :: cs)

/-- A numeric extraction for the examples: after white space, a nonempty run of
decimal digits is read as a natural number; on anything else the extraction
fails and consumes only the white space. -/
def digitsNumGet : NumGet where
  extractDouble cin :=
    match cin.dropWhile isspace with
    | [] => (none, [])
    | c :: cs =>
      if c.isDigit then (some ((readDigits (c :: cs) 0).1 : ℚ), (readDigits (c :: cs) 0).2)
      else (none, c :: cs)
  extractInt cin :=
    match cin.dropWhile isspace with
    | [] => (none, [])
    | c :: cs =>
      if c.isDigit then (some ((readDigits (c :: cs) 0).1 : Int), (readDigits (c :: cs) 0).2)
      else (none, c :: cs)

/-- An object before any game is set up. -/
def blankGame : PokerMLInterface :=
  { playerHand := ⟨[[], []], rfl⟩, playerPot := 0, opponentPots := [], numOpponents := 0,
    smallBlind := 0, bigBlind := 0,
    communityCards := ⟨[[], [], [], [], []], rfl⟩, communityCardCount := 0,
    opponentCalls := [], currentRound := "" }

/-- The session of the end-to-end scenario: two opponents, blinds 1 and 2, a
stack of 100, hole cards AH and KS. -/
def scenarioGame : PokerMLInterface :=
  { playerHand := ⟨[['A', 'H'], ['K', 'S']], rfl⟩,
    playerPot := 100, opponentPots := [100, 100], numOpponents := 2,
    smallBlind := 1, bigBlind := 2,
    communityCards := ⟨[[], [], [], [], []], rfl⟩, communityCardCount := 0,
    opponentCalls := [], currentRound := "" }

/-- The input that sets the scenario's session up, with two rejected attempts:
the token `1H` is not a card (the rest of its line is discarded), and 9
opponents are too many. -/
def setupInput : List Char :=
  "1H AH\nAH\nKS\n100\n9\n2\n100\n100\n1\n2\n".toList

/-- The scenario's session with both blinds entered as 0, which
`getValidAmount` accepts. -/
def zeroBlindGame : PokerMLInterface := { scenarioGame with smallBlind := 0, bigBlind := 0 }

/-- A session that differs from the scenario's in everything but the big
blind; its stack is 0. -/
def otherGame : PokerMLInterface :=
  { playerHand := ⟨[['2', 'C'], ['2', 'C']], rfl⟩,
    playerPot := 0, opponentPots := [7], numOpponents := 1,
    smallBlind := 5, bigBlind := 2,
    communityCards := ⟨[['9', 'D'], ['9', 'D'], ['9', 'D'], ['9', 'D'], ['9', 'D']], rfl⟩,
    communityCardCount := 5,
    opponentCalls := [3], currentRound := "River" }

/-- The draws of the end-to-end scenario: CALL before the flop, RAISE on the
flop, FOLD on the turn. -/
def scenarioRand (n : Nat) : Nat := if n = 0 then 30 else if n = 1 then 70 else 5

/-- Draws under which every decision is CALL. -/
def callRand (_ : Nat) : Nat := 45

/-- The scenario's object when `playHand` has read the hole cards AH and KS, the
stack 100 and the calls 2 and 2. -/
def scenarioHand : PokerMLInterface := { scenarioGame with opponentCalls := [2, 2] }

/-- The scenario's input for the betting rounds: the flop 2D 7C 9H and the turn
TS, one card per line. -/
def scenarioWorld : World :=
  { cin := "2D\n7C\n9H\nTS\n".toList, randCalls := 0, log := [] }

/-- The scenario's input for a whole hand: hole cards, stack, the two calls,
then the flop and the turn. -/
def handWorld : World :=
  { cin := "AH\nKS\n100\n2\n2\n2D\n7C\n9H\nTS\n".toList, randCalls := 0, log := [] }

/-- An input for the betting rounds with a river card. -/
def riverWorld : World :=
  { cin := "2D\n7C\n9H\nTS\nJC\n".toList, randCalls := 0, log := [] }

/-- The scenario's object at the pre-flop decision. -/
def scenarioPreflop : PokerMLInterface := { scenarioHand with currentRound := "Pre-flop" }

/-- The scenario's object at the flop decision. -/
def scenarioFlop : PokerMLInterface :=
  { scenarioHand with
    currentRound := "Flop",
    communityCards := ⟨[['2', 'D'], ['7', 'C'], ['9', 'H'], [], []], rfl⟩,
    communityCardCount := 3 }

/-- The scenario's object at the turn decision. -/
def scenarioTurn : PokerMLInterface :=
  { scenarioHand with
    currentRound := "Turn",
    communityCards := ⟨[['2', 'D'], ['7', 'C'], ['9', 'H'], ['T', 'S'], []], rfl⟩,
    communityCardCount := 4 }

/-- The object at a river decision after the scenario's flop and turn and the
river JC. -/
def scenarioRiver : PokerMLInterface :=
  { scenarioHand with
    currentRound := "River",
    communityCards := ⟨[['2', 'D'], ['7', 'C'], ['9', 'H'], ['T', 'S'], ['J', 'C']], rfl⟩,
    communityCardCount := 5 }

/-- The CALL decision at a big blind of 2. -/
def callDecision : MLDecision :=
  { action := "CALL", amount := 2, reasoning := "Decent hand, calling to see next card" }

/-- The FOLD decision. -/
def foldDecision : MLDecision :=
  { action := "FOLD", amount := 0, reasoning := "Hand too weak for current pot odds" }

/-- The trace of the scenario's betting rounds. -/
def scenarioTrace : List Event :=
  [Event.decisionRequest scenarioPreflop callDecision,
   Event.cardAccepted ['2', 'D'], Event.cardAccepted ['7', 'C'], Event.cardAccepted ['9', 'H'],
   Event.countAssigned 3,
   Event.decisionRequest scenarioFlop
     { action := "RAISE", amount := 27 / 5,
       reasoning := "Strong hand detected, raising for value/bluff" },
   Event.cardAccepted ['T', 'S'],
   Event.countAssigned 4,
   Event.decisionRequest scenarioTurn foldDecision]

/-- The trace of the scenario's whole hand. -/
def handTrace : List Event :=
  [Event.countAssigned 0, Event.cardAccepted ['A', 'H'], Event.cardAccepted ['K', 'S']]
    ++ scenarioTrace

/-- The trace of betting rounds in which every decision is CALL. -/
def riverTrace : List Event :=
  [Event.decisionRequest scenarioPreflop callDecision,
   Event.cardAccepted ['2', 'D'], Event.cardAccepted ['7', 'C'], Event.cardAccepted ['9', 'H'],
   Event.countAssigned 3,
   Event.decisionRequest scenarioFlop callDecision,
   Event.cardAccepted ['T', 'S'],
   Event.countAssigned 4,
   Event.decisionRequest scenarioTurn callDecision,
   Event.cardAccepted ['J', 'C'],
   Event.countAssigned 5,
   Event.decisionRequest scenarioRiver callDecision]

/-- Six valid tokens in mixed case. -/
def mixedTokens : List (List Char) :=
  [['2', 'd'], ['7', 'C'], ['9', 'h'], ['t', 's'], ['J', 'C'], ['A', 'D']]

/-- A world whose input is the six tokens of `mixedTokens`, one per line. -/
def mixedWorld : World := { cin := feed mixedTokens, randCalls := 0, log := [] }

/-- An input for `getValidCard` with two tokens that are not cards before the
card `ah`; the token `yy` shares the line of a rejected token. -/
def retryWorld : World := { cin := "xx yy\n1h\nah ks\n".toList, randCalls := 0, log := [] }

/-- The trace of `getValidCard` on `retryWorld`. -/
def retryTrace : List Event :=
  [Event.cardRejected ['X', 'X'], Event.cardRejected ['1', 'H'], Event.cardAccepted ['A', 'H']]

/-- The input `0`, one per line, `k` times. -/
def zeros : Nat → List Char
  | 0 => []
  | k + 1 => '0' :: '\n' :: zeros k

/-- The input of a hand in which the token `tok` is given as both hole cards and
as all five community cards; the stack and the `n` opponent calls are 0. -/
def dupInput (tok : List Char) (n : Nat) : List Char :=
  feed [tok, tok] ++ (zeros (n + 1) ++ feed (List.replicate 5 tok))

/-- A world whose input gives `ah` seven times, for a hand with two opponents. -/
def dupWorld : World := { cin := dupInput ['a', 'h'] 2, randCalls := 0, log := [] }

/-- The input that sets the scenario's session up with both blinds 0. -/
def zeroBlindInput : List Char := "AH\nKS\n100\n2\n100\n100\n0\n0\n".toList

end PokerMLInterface

/-! ## Cards -/

namespace PokerMLInterface

theorem toUpper_toUpper (c : Char) : c.toUpper.toUpper = c.toUpper := by
  by_cases h : c.toNat ≥ 97 ∧ c.toNat ≤ 122
  · obtain ⟨h1, h2⟩ := h
    have hc : c = Char.ofNat c.toNat := (Char.ofNat_toNat c).symm
    generalize c.toNat = n at h1 h2 hc
    subst hc
    interval_cases n <;> rfl
  · have : c.toUpper = c := by simp only [Char.toUpper, if_neg h]
    rw [this, this]

theorem validRank_iff (c : Char) :
    (('2' ≤ c && c ≤ '9') || c == 'T' || c == 'J' || c == 'Q' || c == 'K' || c == 'A') = true
      ↔ c ∈ ranks := by
  constructor
  · intro h
    simp only [Bool.or_eq_true, Bool.and_eq_true, decide_eq_true_eq, beq_iff_eq] at h
    rcases h with ((((⟨h1, h2⟩ | h) | h) | h) | h) | h
    · have h1 : 50 ≤ c.toNat := h1
      have h2 : c.toNat ≤ 57 := h2
      have hc : c = Char.ofNat c.toNat := (Char.ofNat_toNat c).symm
      generalize c.toNat = n at h1 h2 hc
      subst hc
      interval_cases n <;> decide
    all_goals subst h; decide
  · intro h
    simp only [ranks, List.mem_cons, List.mem_singleton, List.not_mem_nil, or_false] at h
    rcases h with h | h | h | h | h | h | h | h | h | h | h | h | h <;> subst h <;> decide

theorem validSuit_iff (c : Char) :
    (c == 'H' || c == 'D' || c == 'C' || c == 'S') = true ↔ c ∈ suits := by
  simp [suits, or_assoc]

theorem isValidCard_pair (r u : Char) :
    isValidCard [r, u] = true ↔ r.toUpper ∈ ranks ∧ u.toUpper ∈ suits := by
  rw [← validRank_iff, ← validSuit_iff, ← Bool.and_eq_true]
  rfl

theorem isValidCard_length {s : List Char} (h : isValidCard s = true) : s.length = 2 := by
  by_contra hne
  simp [isValidCard, hne] at h

theorem isValidCard_iff (s : List Char) :
    isValidCard s = true ↔
      ∃ r u, s = [r, u] ∧ r.toUpper ∈ ranks ∧ u.toUpper ∈ suits := by
  constructor
  · intro h
    have hl := isValidCard_length h
    match s, hl with
    | [r, u], _ => exact ⟨r, u, rfl, (isValidCard_pair r u).1 h⟩
  · rintro ⟨r, u, rfl, h⟩
    exact (isValidCard_pair r u).2 h

theorem isValidCard_map_toUpper (s : List Char) :
    isValidCard (s.map Char.toUpper) = isValidCard s := by
  rw [Bool.eq_iff_iff, isValidCard_iff, isValidCard_iff]
  constructor
  · rintro ⟨r, u, hs, hr, hu⟩
    match s, hs with
    | [a, b], hs =>
      simp only [List.map_cons, List.map_nil, List.cons.injEq, and_true] at hs
      obtain ⟨rfl, rfl⟩ := hs
      rw [toUpper_toUpper] at hr hu
      exact ⟨a, b, rfl, hr, hu⟩
  · rintro ⟨r, u, rfl, hr, hu⟩
    exact ⟨r.toUpper, u.toUpper, rfl, by rwa [toUpper_toUpper], by rwa [toUpper_toUpper]⟩

theorem not_isspace_of_rank {c : Char} (h : c.toUpper ∈ ranks ∨ c.toUpper ∈ suits) :
    isspace c = false := by
  by_contra hs
  simp only [Bool.not_eq_false, isspace, Bool.or_eq_true, beq_iff_eq] at hs
  rcases hs with ((((hs | hs) | hs) | hs) | hs) | hs <;> subst hs <;> revert h <;> decide

theorem head_dropWhile {α : Type} (p : α → Bool) (l : List α) (c : α)
    (h : (l.dropWhile p).head? = some c) : p c = false := by
  induction l with
  | nil => simp at h
  | cons a l ih =>
    by_cases hp : p a = true
    · rw [List.dropWhile_cons_of_pos hp] at h
      exact ih h
    · rw [List.dropWhile_cons_of_neg hp] at h
      simp only [List.head?_cons, Option.some.injEq] at h
      subst h
      simpa using hp

theorem getLast_takeWhile {α : Type} (p : α → Bool) (l : List α) (c : α)
    (h : (l.takeWhile p).getLast? = some c) : p c = true := by
  have hm : c ∈ l.takeWhile p := List.mem_of_getLast?_eq_some h
  exact (List.mem_takeWhile_imp hm)

theorem not_isToken_nil (tok : List Char) : ¬ IsToken [] tok := by
  rintro ⟨hne, _, pre, post, h, _, _⟩
  have := congrArg List.length h
  simp only [List.length_nil, List.length_append] at this
  exact hne (List.length_eq_zero.1 (by omega))

theorem isToken_append {a b tok : List Char} {c : Char} (hc : isspace c = true)
    (h : IsToken b tok) : IsToken (a ++ c :: b) tok := by
  obtain ⟨hne, hns, pre, post, hb, hpre, hpost⟩ := h
  refine ⟨hne, hns, a ++ c :: pre, post, by simp [hb], ?_, hpost⟩
  intro d hd
  rw [List.getLast?_append, List.getLast?_cons] at hd
  cases hp : pre.getLast? with
  | none => simp [hp] at hd; rw [← hd]; exact hc
  | some e => simp [hp] at hd; rw [← hd]; exact hpre e hp

theorem isToken_extract {cin : List Char} (h : cin.dropWhile isspace ≠ []) :
    IsToken cin ((cin.dropWhile isspace).takeWhile (fun c => !isspace c)) := by
  refine ⟨?_, ?_, cin.takeWhile isspace,
    (cin.dropWhile isspace).dropWhile (fun c => !isspace c), ?_, ?_, ?_⟩
  · obtain ⟨x, l, hx⟩ := List.exists_cons_of_ne_nil h
    have hxs : isspace x = false := head_dropWhile isspace cin x (by rw [hx]; rfl)
    rw [hx, List.takeWhile_cons_of_pos (by simp [hxs])]
    exact List.cons_ne_nil _ _
  · intro c hc
    simpa using List.mem_takeWhile_imp hc
  · rw [List.append_assoc, List.takeWhile_append_dropWhile, List.takeWhile_append_dropWhile]
  · exact getLast_takeWhile isspace cin
  · intro c hc
    simpa using head_dropWhile _ _ c hc

/-- After `clearInputStream` the unread input is empty or follows a newline of the
input it was given. -/
theorem clear_cin (l : List Char) :
    (l.dropWhile (fun c => c != '\n')).drop 1 = [] ∨
      ∃ a, l = a ++ '\n' :: (l.dropWhile (fun c => c != '\n')).drop 1 := by
  cases h : l.dropWhile (fun c => c != '\n') with
  | nil => left; rfl
  | cons x t =>
    right
    have hx : x = '\n' := by
      have := head_dropWhile (fun c => c != '\n') l x (by rw [h]; rfl)
      simpa using this
    refine ⟨l.takeWhile (fun c => c != '\n'), ?_⟩
    conv_lhs => rw [← List.takeWhile_append_dropWhile (fun c => c != '\n') l, h, hx]
    simp

theorem getValidCardLoop_spec : ∀ (fuel : Nat) (card : List Char) (w : World)
    (res : List Char × World), isValidCard (card.map Char.toUpper) = false →
    getValidCardLoop fuel card w = some res →
    isValidCard res.1 = true ∧ res.2.randCalls = w.randCalls ∧
      ∃ (toks : List (List Char)) (tok : List Char),
        res.1 = tok.map Char.toUpper ∧ IsToken w.cin tok ∧
        (∀ t ∈ toks, IsToken w.cin t ∧ isValidCard (t.map Char.toUpper) = false) ∧
        res.2.log = w.log ++ toks.map (fun t => Event.cardRejected (t.map Char.toUpper))
          ++ [Event.cardAccepted res.1] := by
  intro fuel
  induction fuel with
  | zero => intro card w res _ h; simp [getValidCardLoop] at h
  | succ fuel ih =>
    intro card w res hcard h
    simp only [getValidCardLoop] at h
    by_cases hs : w.cin.dropWhile isspace = []
    · -- the extraction fails: the stale string is examined again
      simp only [extractWord, hs, if_true, hcard] at h
      have := ih _ _ res (by simpa [List.map_map, toUpper_toUpper, Function.comp_def] using hcard) h
      obtain ⟨_, _, _, tok, _, htok, _⟩ := this
      exact absurd htok (by simpa [clearInputStream] using not_isToken_nil tok)
    · simp only [extractWord, hs, if_false] at h
      have htok := isToken_extract hs
      generalize hT : (w.cin.dropWhile isspace).takeWhile (fun c => !isspace c) = tok at h htok
      generalize hP : (w.cin.dropWhile isspace).dropWhile (fun c => !isspace c) = post at h
      by_cases hv : isValidCard (tok.map Char.toUpper) = true
      · simp only [hv, if_true, Option.some.injEq] at h
        subst h
        exact ⟨hv, rfl, [], tok, rfl, htok, by simp, by simp⟩
      · simp only [hv] at h
        have hv' : isValidCard (tok.map Char.toUpper) = false := by simpa using hv
        have := ih _ _ res (by simpa [List.map_map, toUpper_toUpper, Function.comp_def] using hv') h
        obtain ⟨h1, h2, toks, tok', h3, h4, h5, h6⟩ := this
        simp only [clearInputStream] at h2 h4 h5 h6
        have lift : ∀ t, IsToken ((post.dropWhile (fun c => c != '\n')).drop 1) t →
            IsToken w.cin t := by
          intro t ht
          rcases clear_cin post with hnil | ⟨a, ha⟩
          · rw [hnil] at ht; exact absurd ht (not_isToken_nil t)
          · have hcin : w.cin = (w.cin.takeWhile isspace ++ tok ++ a) ++
                '\n' :: (post.dropWhile (fun c => c != '\n')).drop 1 := by
              rw [List.append_assoc, List.append_assoc, ← ha, ← hT, ← hP,
                List.takeWhile_append_dropWhile, List.takeWhile_append_dropWhile]
            rw [hcin]
            exact isToken_append (by decide) ht
        refine ⟨h1, h2, tok :: toks, tok', h3, lift _ h4, ?_, ?_⟩
        · intro t ht
          rcases List.mem_cons.1 ht with rfl | ht
          · exact ⟨htok, hv'⟩
          · exact ⟨lift _ (h5 t ht).1, (h5 t ht).2⟩
        · rw [h6]; simp

/-! ## Traces -/

theorem observable_append (a b : List Event) :
    observable (a ++ b) = observable a ++ observable b := by
  induction a with
  | nil => rfl
  | cons e a ih => cases e <;> simp [observable, ih]

theorem observable_rejected (f : List Char → List Char) (toks : List (List Char)) :
    observable (toks.map (fun t => Event.cardRejected (f t))) = [] := by
  induction toks with
  | nil => rfl
  | cons t toks ih => simpa [observable] using ih

theorem acceptedCards_observable (ev : List Event) :
    acceptedCards (observable ev) = acceptedCards ev := by
  induction ev with
  | nil => rfl
  | cons e ev ih => cases e <;> simp [observable, acceptedCards, ih]

theorem decisions_observable (ev : List Event) :
    decisions (observable ev) = decisions ev := by
  induction ev with
  | nil => rfl
  | cons e ev ih => cases e <;> simp [observable, decisions, ih]

theorem countHistory_observable (ev : List Event) (c a : Nat) :
    countHistory c a (observable ev) = countHistory c a ev := by
  induction ev generalizing c a with
  | nil => rfl
  | cons e ev ih => cases e <;> simp [observable, countHistory, ih]

theorem Emits.append {w w1 w2 : World} {L1 L2 : List Event} {k1 k2 : Nat}
    (h1 : Emits w w1 L1 k1) (h2 : Emits w1 w2 L2 k2) (hne : L2 ≠ []) :
    Emits w w2 (L1 ++ L2) (k1 + k2) := by
  obtain ⟨r1, ev1, l1, o1, _⟩ := h1
  obtain ⟨r2, ev2, l2, o2, g2⟩ := h2
  refine ⟨by omega, ev1 ++ ev2, by rw [l2, l1, List.append_assoc], ?_, ?_⟩
  · rw [observable_append, o1, o2]
  · have hev : ev2 ≠ [] := by
      rintro rfl
      exact hne (by simpa [observable] using o2.symm)
    rw [List.getLast?_append_of_ne_nil _ hev, List.getLast?_append_of_ne_nil _ hne, g2]

theorem getValidCard_emits {fuel : Nat} {w : World} {c : List Char × World}
    (h : getValidCard fuel w = some c) :
    isValidCard c.1 = true ∧ Emits w c.2 [Event.cardAccepted c.1] 0 := by
  obtain ⟨hv, hr, toks, tok, _, _, _, hl⟩ := getValidCardLoop_spec fuel [] w c (by decide) h
  refine ⟨hv, hr, _, by rw [hl, List.append_assoc], ?_, ?_⟩
  · rw [observable_append, observable_rejected]; rfl
  · simp

theorem requestDecision_emits (rand : Nat → Nat) (s : PokerMLInterface) (w : World) :
    Emits w (requestDecision rand s w).2
      [Event.decisionRequest s (getMLDecision s (rand w.randCalls))] 1 :=
  ⟨rfl, _, rfl, rfl, by simp⟩

theorem assignCount_emits (n : Int) (s : PokerMLInterface) (w : World) :
    Emits w (assignCount n s w).2 [Event.countAssigned n] 0 :=
  ⟨rfl, _, rfl, rfl, by simp⟩


theorem riverSection_run {rand : Nat → Nat} {fuel : Nat} {self : PokerMLInterface}
    {w : World} {r : PokerMLInterface × World}
    (h : riverSection rand fuel self w = some r) :
    ∃ L k, Emits w r.2 L k ∧ RiverRun rand w.randCalls self L r.1 (w.randCalls + k) := by
  obtain ⟨c, hc, h⟩ := Option.bind_eq_some.1 h
  obtain ⟨v, g⟩ := getValidCard_emits hc
  obtain rfl := Option.some.inj h
  have hr : c.2.randCalls = w.randCalls := by simpa using g.1
  refine ⟨_, _, (g.append (assignCount_emits 5 _ c.2) (by simp)).append
    (requestDecision_emits rand _ _) (by simp), c.1, v, ?_, rfl, rfl⟩
  simp only [assignCount, hr]
  rfl

theorem turnSection_run {rand : Nat → Nat} {fuel : Nat} {self : PokerMLInterface}
    {w : World} {r : PokerMLInterface × World}
    (h : turnSection rand fuel self w = some r) :
    ∃ L k, Emits w r.2 L k ∧ TurnRun rand w.randCalls self L r.1 (w.randCalls + k) := by
  obtain ⟨c, hc, h⟩ := Option.bind_eq_some.1 h
  obtain ⟨v, g⟩ := getValidCard_emits hc
  have hr : c.2.randCalls = w.randCalls := by simpa using g.1
  dsimp only at h
  split_ifs at h with hd
  · obtain rfl := Option.some.inj h
    refine ⟨_, _, (g.append (assignCount_emits 4 _ c.2) (by simp)).append
      (requestDecision_emits rand _ _) (by simp), c.1, v, [], ?_, ?_⟩
    · simp only [assignCount, hr]; rfl
    · simp only [requestDecision, assignCount, hr] at hd
      rw [if_pos hd]; exact ⟨rfl, rfl, rfl⟩
  · obtain ⟨L, k, E', R⟩ := riverSection_run h
    have hne : L ≠ [] := by
      obtain ⟨_, _, hL, _⟩ := R
      rw [hL]; simp
    refine ⟨_, _, ((g.append (assignCount_emits 4 _ c.2) (by simp)).append
      (requestDecision_emits rand _ _) (by simp)).append E' hne, c.1, v, L, ?_, ?_⟩
    · simp only [assignCount, hr]; rfl
    · simp only [requestDecision, assignCount, hr] at hd R
      rw [if_neg hd, show w.randCalls + (0 + 0 + 1 + k) = w.randCalls + 1 + k by omega]
      exact R

theorem flopSection_run {rand : Nat → Nat} {fuel : Nat} {self : PokerMLInterface}
    {w : World} {r : PokerMLInterface × World}
    (h : flopSection rand fuel self w = some r) :
    ∃ L k, Emits w r.2 L k ∧ FlopRun rand w.randCalls self L r.1 (w.randCalls + k) := by
  obtain ⟨c0, hc0, h⟩ := Option.bind_eq_some.1 h
  obtain ⟨c1, hc1, h⟩ := Option.bind_eq_some.1 h
  obtain ⟨c2, hc2, h⟩ := Option.bind_eq_some.1 h
  obtain ⟨v0, g0⟩ := getValidCard_emits hc0
  obtain ⟨v1, g1⟩ := getValidCard_emits hc1
  obtain ⟨v2, g2⟩ := getValidCard_emits hc2
  have hr : c2.2.randCalls = w.randCalls := by
    have := g0.1; have := g1.1; have := g2.1; omega
  dsimp only at h
  split_ifs at h with hd
  · obtain rfl := Option.some.inj h
    refine ⟨_, _, (((g0.append g1 (by simp)).append g2 (by simp)).append
      (assignCount_emits 3 _ c2.2) (by simp)).append
      (requestDecision_emits rand _ _) (by simp), c0.1, c1.1, c2.1, v0, v1, v2, [], ?_, ?_⟩
    · simp only [assignCount, hr]; rfl
    · simp only [requestDecision, assignCount, hr] at hd
      rw [if_pos hd]; exact ⟨rfl, rfl, rfl⟩
  · obtain ⟨L, k, E', R⟩ := turnSection_run h
    have hne : L ≠ [] := by
      obtain ⟨_, _, _, hL, _⟩ := R
      rw [hL]; simp
    refine ⟨_, _, ((((g0.append g1 (by simp)).append g2 (by simp)).append
      (assignCount_emits 3 _ c2.2) (by simp)).append
      (requestDecision_emits rand _ _) (by simp)).append E' hne,
      c0.1, c1.1, c2.1, v0, v1, v2, L, ?_, ?_⟩
    · simp only [assignCount, hr]; rfl
    · simp only [requestDecision, assignCount, hr] at hd R
      rw [if_neg hd, show w.randCalls + (0 + 0 + 0 + 0 + 1 + k) = w.randCalls + 1 + k by omega]
      exact R

theorem playBettingRounds_run {rand : Nat → Nat} {fuel : Nat} {self : PokerMLInterface}
    {w : World} {r : PokerMLInterface × World}
    (h : playBettingRounds rand fuel self w = some r) :
    ∃ L k, Emits w r.2 L k ∧ BettingRun rand w.randCalls self L r.1 (w.randCalls + k) := by
  simp only [playBettingRounds] at h
  split_ifs at h with hd
  · obtain rfl := Option.some.inj h
    refine ⟨_, _, requestDecision_emits rand _ _, [], rfl, ?_⟩
    simp only [requestDecision] at hd
    rw [if_pos hd]; exact ⟨rfl, rfl, rfl⟩
  · obtain ⟨L, k, E', R⟩ := flopSection_run h
    have hne : L ≠ [] := by
      obtain ⟨_, _, _, _, _, _, _, hL, _⟩ := R
      rw [hL]; simp
    refine ⟨_, _, (requestDecision_emits rand _ _).append E' hne, L, rfl, ?_⟩
    simp only [requestDecision] at hd R
    rw [if_neg hd, show w.randCalls + (1 + k) = w.randCalls + 1 + k by omega]
    exact R


/-! ## The decision engine -/

theorem randomFactor_lt_fold (n : Nat) : ((n : ℚ) / 100 < 2 / 10) ↔ n < 20 := by
  constructor
  · intro h
    have : (n : ℚ) < 20 := by linarith
    exact_mod_cast this
  · intro h
    have : (n : ℚ) < 20 := by exact_mod_cast h
    linarith

theorem randomFactor_lt_call (n : Nat) : ((n : ℚ) / 100 < 6 / 10) ↔ n < 60 := by
  constructor
  · intro h
    have : (n : ℚ) < 60 := by linarith
    exact_mod_cast this
  · intro h
    have : (n : ℚ) < 60 := by exact_mod_cast h
    linarith

theorem getMLDecision_fold (self : PokerMLInterface) (r : Nat) (h : r % 100 < 20) :
    getMLDecision self r =
      { action := "FOLD", amount := 0, reasoning := "Hand too weak for current pot odds" } := by
  simp only [getMLDecision, if_pos ((randomFactor_lt_fold _).2 h)]

theorem getMLDecision_call (self : PokerMLInterface) (r : Nat) (h1 : 20 ≤ r % 100)
    (h2 : r % 100 < 60) :
    getMLDecision self r =
      { action := "CALL", amount := self.bigBlind,
        reasoning := "Decent hand, calling to see next card" } := by
  simp only [getMLDecision, if_neg (mt (randomFactor_lt_fold _).1 (not_lt.2 h1)),
    if_pos ((randomFactor_lt_call _).2 h2)]

theorem getMLDecision_raise (self : PokerMLInterface) (r : Nat) (h : 60 ≤ r % 100) :
    getMLDecision self r =
      { action := "RAISE", amount := self.bigBlind * (2 + ((r % 100 : Nat) : ℚ) / 100),
        reasoning := "Strong hand detected, raising for value/bluff" } := by
  have h20 : 20 ≤ r % 100 := le_trans (by decide) h
  simp only [getMLDecision, if_neg (mt (randomFactor_lt_fold _).1 (not_lt.2 h20)),
    if_neg (mt (randomFactor_lt_call _).1 (not_lt.2 h))]

theorem getMLDecision_cases (self : PokerMLInterface) (r : Nat) :
    (r % 100 < 20 ∧ getMLDecision self r =
      { action := "FOLD", amount := 0, reasoning := "Hand too weak for current pot odds" }) ∨
    (20 ≤ r % 100 ∧ r % 100 < 60 ∧ getMLDecision self r =
      { action := "CALL", amount := self.bigBlind,
        reasoning := "Decent hand, calling to see next card" }) ∨
    (60 ≤ r % 100 ∧ getMLDecision self r =
      { action := "RAISE", amount := self.bigBlind * (2 + ((r % 100 : Nat) : ℚ) / 100),
        reasoning := "Strong hand detected, raising for value/bluff" }) := by
  by_cases h1 : r % 100 < 20
  · exact Or.inl ⟨h1, getMLDecision_fold self r h1⟩
  · by_cases h2 : r % 100 < 60
    · exact Or.inr (Or.inl ⟨by omega, h2, getMLDecision_call self r (by omega) h2⟩)
    · exact Or.inr (Or.inr ⟨by omega, getMLDecision_raise self r (by omega)⟩)

theorem action_fold_iff (self : PokerMLInterface) (r : Nat) :
    (getMLDecision self r).action = "FOLD" ↔ r % 100 < 20 := by
  rcases getMLDecision_cases self r with ⟨h, e⟩ | ⟨h1, h2, e⟩ | ⟨h, e⟩ <;>
    rw [e] <;> simp <;> omega

theorem action_call_iff (self : PokerMLInterface) (r : Nat) :
    (getMLDecision self r).action = "CALL" ↔ 20 ≤ r % 100 ∧ r % 100 < 60 := by
  rcases getMLDecision_cases self r with ⟨h, e⟩ | ⟨h1, h2, e⟩ | ⟨h, e⟩ <;>
    rw [e] <;> simp <;> omega

theorem action_raise_iff (self : PokerMLInterface) (r : Nat) :
    (getMLDecision self r).action = "RAISE" ↔ 60 ≤ r % 100 := by
  rcases getMLDecision_cases self r with ⟨h, e⟩ | ⟨h1, h2, e⟩ | ⟨h, e⟩ <;>
    rw [e] <;> simp <;> omega


/-! ## Amounts and the hand -/

theorem getValidAmount_spec (N : NumGet) : ∀ (fuel : Nat) (minAmount : ℚ) (w : World)
    (r : ℚ × World), getValidAmount N fuel minAmount w = some r →
    minAmount ≤ r.1 ∧ r.2.log = w.log ∧ r.2.randCalls = w.randCalls := by
  intro fuel
  induction fuel with
  | zero => intro m w r h; simp [getValidAmount] at h
  | succ fuel ih =>
    intro m w r h
    simp only [getValidAmount] at h
    split at h
    · split_ifs at h with ha
      · obtain rfl := Option.some.inj h
        exact ⟨ha, rfl, rfl⟩
      · have := ih _ _ _ h
        exact this
    · have := ih _ _ _ h
      exact this

theorem getValidInteger_spec (N : NumGet) : ∀ (fuel : Nat) (minVal maxVal : Int) (w : World)
    (r : Int × World), getValidInteger N fuel minVal maxVal w = some r →
    minVal ≤ r.1 ∧ r.1 ≤ maxVal ∧ r.2.log = w.log ∧ r.2.randCalls = w.randCalls := by
  intro fuel
  induction fuel with
  | zero => intro lo hi w r h; simp [getValidInteger] at h
  | succ fuel ih =>
    intro lo hi w r h
    simp only [getValidInteger] at h
    split at h
    · split_ifs at h with ha
      · obtain rfl := Option.some.inj h
        exact ⟨ha.1, ha.2, rfl, rfl⟩
      · have := ih _ _ _ _ h
        exact this
    · have := ih _ _ _ _ h
      exact this

theorem collectAmounts_spec (N : NumGet) (fuel : Nat) : ∀ (n : Nat) (amounts : List ℚ)
    (w : World) (r : List ℚ × World), collectAmounts N fuel n amounts w = some r →
    (∃ new : List ℚ, r.1 = amounts ++ new ∧ new.length = n ∧ ∀ x ∈ new, 0 ≤ x) ∧
      r.2.log = w.log ∧ r.2.randCalls = w.randCalls := by
  intro n
  induction n with
  | zero =>
    intro amounts w r h
    obtain rfl := Option.some.inj h
    exact ⟨⟨[], by simp⟩, rfl, rfl⟩
  | succ n ih =>
    intro amounts w r h
    simp only [collectAmounts] at h
    split at h
    · exact absurd h (by simp)
    · rename_i a ha
      obtain ⟨h0, hl, hr⟩ := getValidAmount_spec N fuel 0 w a ha
      obtain ⟨⟨new, e, len, pos⟩, hl', hr'⟩ := ih _ _ _ h
      refine ⟨⟨a.1 :: new, by simp [e], by simp [len], ?_⟩, hl'.trans hl, hr'.trans hr⟩
      intro x hx
      rcases List.mem_cons.1 hx with rfl | hx
      · exact h0
      · exact pos x hx

theorem Emits.quiet {w w1 w2 : World} {L : List Event} {k : Nat} (h : Emits w w1 L k)
    (hl : w2.log = w1.log) (hr : w2.randCalls = w1.randCalls) : Emits w w2 L k := by
  obtain ⟨r, ev, l, o, g⟩ := h
  exact ⟨hr.trans r, ev, hl.trans l, o, g⟩

theorem playHand_run {N : NumGet} {rand : Nat → Nat} {fuel : Nat} {self : PokerMLInterface}
    {w : World} {r : PokerMLInterface × World}
    (h : playHand N rand fuel self w = some r) :
    ∃ L k, Emits w r.2 L k ∧ HandRun rand w.randCalls self L r.1 (w.randCalls + k) := by
  obtain ⟨c0, hc0, h⟩ := Option.bind_eq_some.1 h
  obtain ⟨c1, hc1, h⟩ := Option.bind_eq_some.1 h
  obtain ⟨a, ha, h⟩ := Option.bind_eq_some.1 h
  obtain ⟨l, hl, h⟩ := Option.bind_eq_some.1 h
  obtain ⟨v0, g0⟩ := getValidCard_emits hc0
  obtain ⟨v1, g1⟩ := getValidCard_emits hc1
  obtain ⟨a0, al, ar⟩ := getValidAmount_spec N fuel 0 _ a ha
  obtain ⟨⟨new, e, len, pos⟩, ll, lr⟩ := collectAmounts_spec N fuel _ _ _ l hl
  obtain ⟨L, k, E', R⟩ := playBettingRounds_run h
  have hne : L ≠ [] := by
    obtain ⟨_, hL, _⟩ := R
    rw [hL]; simp
  have E := ((((assignCount_emits 0 self w).append g0 (by simp)).append g1 (by simp)).quiet
    al ar).quiet ll lr
  have hr : l.2.randCalls = w.randCalls := by simpa using E.1
  refine ⟨_, _, E.append E' hne, c0.1, c1.1, a.1, l.1, L, v0, v1, a0, ?_, ?_, rfl, ?_⟩
  · rw [e]; simpa [assignCount] using len
  · rw [e]; simpa using pos
  · rw [hr] at R
    rw [show w.randCalls + (0 + 0 + 0 + k) = w.randCalls + k by omega]
    exact R

theorem setupGame_spec {N : NumGet} {fuel : Nat} {self : PokerMLInterface}
    {w : World} {r : PokerMLInterface × World}
    (h : setupGame N fuel self w = some r) :
    SetupResult self r.1 ∧
      ∃ c0 c1, Emits w r.2 [Event.cardAccepted c0, Event.cardAccepted c1] 0 := by
  obtain ⟨c0, hc0, h⟩ := Option.bind_eq_some.1 h
  obtain ⟨c1, hc1, h⟩ := Option.bind_eq_some.1 h
  obtain ⟨a, ha, h⟩ := Option.bind_eq_some.1 h
  obtain ⟨n, hn, h⟩ := Option.bind_eq_some.1 h
  obtain ⟨l, hl, h⟩ := Option.bind_eq_some.1 h
  obtain ⟨sb, hsb, h⟩ := Option.bind_eq_some.1 h
  obtain ⟨bb, hbb, h⟩ := Option.bind_eq_some.1 h
  obtain ⟨v0, g0⟩ := getValidCard_emits hc0
  obtain ⟨v1, g1⟩ := getValidCard_emits hc1
  obtain ⟨a0, al, ar⟩ := getValidAmount_spec N fuel 0 _ a ha
  obtain ⟨n1, n8, nl, nr⟩ := getValidInteger_spec N fuel 1 8 _ n hn
  obtain ⟨⟨new, e, len, pos⟩, ll, lr⟩ := collectAmounts_spec N fuel _ _ _ l hl
  obtain ⟨s0, sl, sr⟩ := getValidAmount_spec N fuel 0 _ sb hsb
  obtain ⟨b0, bl, br⟩ := getValidAmount_spec N fuel 0 _ bb hbb
  have E := (((((g0.append g1 (by simp)).quiet al ar).quiet nl nr).quiet ll lr).quiet
    sl sr).quiet bl br
  have hlen : l.1.length = n.1.toNat := by rw [e]; simpa using len
  have hpos : ∀ x ∈ l.1, 0 ≤ x := by rw [e]; simpa using pos
  have hr := Option.some.inj h
  rw [← hr]
  exact ⟨⟨c0.1, c1.1, a.1, n.1, l.1, sb.1, bb.1, v0, v1, a0, n1, n8, hlen, hpos, s0, b0, rfl⟩,
    c0.1, c1.1, E⟩

/-! ## Runs on a supply of valid tokens -/

theorem dropWhile_isspace_append (ws l : List Char) (h : ∀ c ∈ ws, isspace c = true) :
    (ws ++ l).dropWhile isspace = l.dropWhile isspace := by
  induction ws with
  | nil => rfl
  | cons a ws ih =>
    rw [List.cons_append, List.dropWhile_cons_of_pos (h a (List.mem_cons_self _ _))]
    exact ih (fun c hc => h c (List.mem_cons_of_mem _ hc))

theorem getValidCard_of_token (fuel : Nat) (w : World) (ws tok rest : List Char)
    (hws : ∀ c ∈ ws, isspace c = true) (hv : isValidCard (tok.map Char.toUpper) = true)
    (hcin : w.cin = ws ++ tok ++ '\n' :: rest) :
    getValidCard (fuel + 1) w =
      some (tok.map Char.toUpper,
        { w with cin := '\n' :: rest,
                 log := w.log ++ [Event.cardAccepted (tok.map Char.toUpper)] }) := by
  rw [isValidCard_map_toUpper] at hv
  have hv2 := hv
  rw [isValidCard_iff] at hv
  obtain ⟨r, u, rfl, hr, hu⟩ := hv
  have hrs := not_isspace_of_rank (Or.inl hr)
  have hus := not_isspace_of_rank (Or.inr hu)
  have hn : isspace '\n' = true := by decide
  have hd : w.cin.dropWhile isspace = r :: u :: '\n' :: rest := by
    rw [hcin, List.append_assoc, dropWhile_isspace_append _ _ hws]
    simp [List.dropWhile, hrs]
  have hval : isValidCard [r.toUpper, u.toUpper] = true := by
    rw [← isValidCard_map_toUpper] at hv2
    exact hv2
  simp [getValidCard, getValidCardLoop, extractWord, hd, List.takeWhile, List.dropWhile,
    hrs, hus, hn, hval]

theorem acceptedCards_append (a b : List Event) :
    acceptedCards (a ++ b) = acceptedCards a ++ acceptedCards b := by
  induction a with
  | nil => rfl
  | cons e a ih => cases e <;> simp [acceptedCards, ih]

theorem rejectedTokens_append (a b : List Event) :
    rejectedTokens (a ++ b) = rejectedTokens a ++ rejectedTokens b := by
  induction a with
  | nil => rfl
  | cons e a ih => cases e <;> simp [rejectedTokens, ih]

theorem Fed.start (w : World) (toks : List (List Char)) (h : Supply w toks) : Fed w w toks 0 0 :=
  ⟨by simpa using h, rfl, [], by simp, rfl, by simp [acceptedCards]⟩

theorem Fed.chain {w w1 w2 : World} {toks : List (List Char)} {j i k l : Nat}
    (h1 : Fed w w1 toks j k) (h2 : Fed w1 w2 (toks.drop j) i l) :
    Fed w w2 toks (j + i) (k + l) := by
  obtain ⟨s1, r1, ev1, l1, n1, a1⟩ := h1
  obtain ⟨s2, r2, ev2, l2, n2, a2⟩ := h2
  refine ⟨by simpa [List.drop_drop, Nat.add_comm] using s2, by omega, ev1 ++ ev2,
    by rw [l2, l1, List.append_assoc], by rw [rejectedTokens_append, n1, n2]; rfl, ?_⟩
  rw [acceptedCards_append, a1, a2, ← List.map_append, List.take_add]

theorem Fed.card (fuel : Nat) {w : World} {t : List Char} {ts : List (List Char)}
    (h : Supply w (t :: ts)) (hv : isValidCard (t.map Char.toUpper) = true) :
    ∃ c, getValidCard (fuel + 1) w = some c ∧ c.1 = t.map Char.toUpper ∧
      Fed w c.2 (t :: ts) 1 0 := by
  obtain ⟨ws, hws, hcin⟩ := h
  have := getValidCard_of_token fuel w ws t (feed ts) hws hv
    (by rw [hcin, feed, List.append_assoc])
  exact ⟨_, this, rfl, ⟨['\n'], by simp [isspace], rfl⟩, rfl, _, rfl, rfl, rfl⟩

theorem Fed.decision {w w1 : World} {toks : List (List Char)} {j k : Nat} (rand : Nat → Nat)
    (s : PokerMLInterface) (h : Fed w w1 toks j k) :
    Fed w (requestDecision rand s w1).2 toks j (k + 1) := by
  obtain ⟨s1, r1, ev1, l1, n1, a1⟩ := h
  refine ⟨s1, by simp [requestDecision, r1, Nat.add_assoc],
    ev1 ++ [Event.decisionRequest s (getMLDecision s (rand w1.randCalls))], ?_, ?_, ?_⟩
  · simp [requestDecision, l1]
  · rw [rejectedTokens_append, n1]; rfl
  · rw [acceptedCards_append, a1]; simp [acceptedCards]

theorem Fed.assign {w w1 : World} {toks : List (List Char)} {j k : Nat} (n : Int)
    (s : PokerMLInterface) (h : Fed w w1 toks j k) : Fed w (assignCount n s w1).2 toks j k := by
  obtain ⟨s1, r1, ev1, l1, n1, a1⟩ := h
  refine ⟨s1, r1, ev1 ++ [Event.countAssigned n], ?_, ?_, ?_⟩
  · simp [assignCount, l1]
  · rw [rejectedTokens_append, n1]; rfl
  · rw [acceptedCards_append, a1]; simp [acceptedCards]

/-- Reading the next card of a supply of valid tokens. -/
theorem Fed.next (fuel : Nat) {w w1 : World} {toks : List (List Char)} {j k : Nat}
    (h : Fed w w1 toks j k) (hv : ∀ t ∈ toks, isValidCard (t.map Char.toUpper) = true)
    (hj : j < toks.length) :
    ∃ c, getValidCard (fuel + 1) w1 = some c ∧ Fed w c.2 toks (j + 1) k := by
  obtain ⟨t, ts, hd⟩ : ∃ t ts, toks.drop j = t :: ts := by
    cases hd : toks.drop j with
    | nil => simp at hd; omega
    | cons t ts => exact ⟨t, ts, rfl⟩
  have ht : t ∈ toks := List.mem_of_mem_drop (by rw [hd]; exact List.mem_cons_self _ _)
  obtain ⟨c, hc, _, hf⟩ := Fed.card fuel (hd ▸ h.1) (hv t ht)
  exact ⟨c, hc, by simpa using h.chain (hd ▸ hf)⟩

theorem riverSection_fed (rand : Nat → Nat) (fuel : Nat) {w0 w : World}
    {toks : List (List Char)} {j k : Nat} (s : PokerMLInterface) (h : Fed w0 w toks j k)
    (hv : ∀ t ∈ toks, isValidCard (t.map Char.toUpper) = true) (hj : j + 1 ≤ toks.length) :
    ∃ r, riverSection rand (fuel + 1) s w = some r ∧ Fed w0 r.2 toks (j + 1) (k + 1) := by
  obtain ⟨c, hc, hf⟩ := Fed.next fuel h hv (by omega)
  simp only [riverSection, hc, Option.some_bind]
  exact ⟨_, rfl, (hf.assign 5 _).decision rand _⟩

theorem requestDecision_fold_iff (rand : Nat → Nat) (s : PokerMLInterface) (w : World) :
    (requestDecision rand s w).1.action = "FOLD" ↔ rand w.randCalls % 100 < 20 :=
  action_fold_iff s (rand w.randCalls)

theorem turnSection_fed (rand : Nat → Nat) (fuel : Nat) {w0 w : World}
    {toks : List (List Char)} {j k : Nat} (s : PokerMLInterface) (h : Fed w0 w toks j k)
    (hv : ∀ t ∈ toks, isValidCard (t.map Char.toUpper) = true)
    (hj : j + turnCards rand (w0.randCalls + k) ≤ toks.length) :
    ∃ r l, turnSection rand (fuel + 1) s w = some r ∧
      Fed w0 r.2 toks (j + turnCards rand (w0.randCalls + k)) l := by
  have h1 : 1 ≤ turnCards rand (w0.randCalls + k) := by unfold turnCards; split_ifs <;> omega
  obtain ⟨c, hc, hf⟩ := Fed.next fuel h hv (by omega)
  simp only [turnSection, hc, Option.some_bind, requestDecision_fold_iff]
  have hr : ∀ x, (assignCount 4 x c.2).2.randCalls = w0.randCalls + k := fun _ => hf.2.1
  rw [hr]
  by_cases hd : rand (w0.randCalls + k) % 100 < 20
  · rw [if_pos hd]
    have e : turnCards rand (w0.randCalls + k) = 1 := by simp [turnCards, hd]
    rw [e]
    exact ⟨_, _, rfl, (hf.assign 4 _).decision rand _⟩
  · rw [if_neg hd]
    have e : turnCards rand (w0.randCalls + k) = 2 := by simp [turnCards, hd]
    rw [e] at hj ⊢
    obtain ⟨r, hr, hfr⟩ := riverSection_fed rand fuel _
      ((hf.assign 4 _).decision rand _) hv (by omega)
    exact ⟨r, _, hr, hfr⟩

theorem flopSection_fed (rand : Nat → Nat) (fuel : Nat) {w0 w : World}
    {toks : List (List Char)} {j k : Nat} (s : PokerMLInterface) (h : Fed w0 w toks j k)
    (hv : ∀ t ∈ toks, isValidCard (t.map Char.toUpper) = true)
    (hj : j + flopCards rand (w0.randCalls + k) ≤ toks.length) :
    ∃ r l, flopSection rand (fuel + 1) s w = some r ∧
      Fed w0 r.2 toks (j + flopCards rand (w0.randCalls + k)) l := by
  have h1 : 3 ≤ flopCards rand (w0.randCalls + k) := by unfold flopCards; split_ifs <;> omega
  obtain ⟨c0, hc0, hf0⟩ := Fed.next fuel h hv (by omega)
  obtain ⟨c1, hc1, hf1⟩ := Fed.next fuel hf0 hv (by omega)
  obtain ⟨c2, hc2, hf2⟩ := Fed.next fuel hf1 hv (by omega)
  simp only [flopSection, hc0, hc1, hc2, Option.some_bind, requestDecision_fold_iff]
  have hr : ∀ x, (assignCount 3 x c2.2).2.randCalls = w0.randCalls + k := fun _ => hf2.2.1
  rw [hr]
  by_cases hd : rand (w0.randCalls + k) % 100 < 20
  · rw [if_pos hd]
    have e : flopCards rand (w0.randCalls + k) = 3 := by simp [flopCards, hd]
    rw [e]
    exact ⟨_, _, rfl, (hf2.assign 3 _).decision rand _⟩
  · rw [if_neg hd]
    have e : flopCards rand (w0.randCalls + k) = 3 + turnCards rand (w0.randCalls + (k + 1)) := by
      simp [flopCards, hd, Nat.add_assoc]
    rw [e] at hj ⊢
    obtain ⟨r, l, hr, hfr⟩ := turnSection_fed rand fuel _
      ((hf2.assign 3 _).decision rand _) hv (by omega)
    exact ⟨r, l, hr, by simpa [Nat.add_assoc] using hfr⟩

theorem playBettingRounds_fed (rand : Nat → Nat) (fuel : Nat) {w : World}
    {toks : List (List Char)} (s : PokerMLInterface) (h : Supply w toks)
    (hv : ∀ t ∈ toks, isValidCard (t.map Char.toUpper) = true)
    (hj : roundsCards rand w.randCalls ≤ toks.length) :
    ∃ r l, playBettingRounds rand (fuel + 1) s w = some r ∧
      Fed w r.2 toks (roundsCards rand w.randCalls) l := by
  simp only [playBettingRounds, requestDecision_fold_iff]
  by_cases hd : rand w.randCalls % 100 < 20
  · rw [if_pos hd]
    have e : roundsCards rand w.randCalls = 0 := by simp [roundsCards, hd]
    rw [e]
    exact ⟨_, _, rfl, (Fed.start w toks h).decision rand _⟩
  · rw [if_neg hd]
    have e : roundsCards rand w.randCalls = flopCards rand (w.randCalls + (0 + 1)) := by
      simp [roundsCards, hd]
    rw [e] at hj ⊢
    obtain ⟨r, l, hr, hfr⟩ := flopSection_fed rand fuel _
      ((Fed.start w toks h).decision rand _) hv (by omega)
    exact ⟨r, l, hr, by simpa using hfr⟩

/-- The four ways a run of `playBettingRounds` can go, with the objects at the
decision requests and the decisions named. -/
theorem BettingRun.cases {rand : Nat → Nat} {n m : Nat} {self final : PokerMLInterface}
    {L : List Event} (R : BettingRun rand n self L final m) :
    ∃ s0 d0, s0 = { self with currentRound := "Pre-flop" } ∧ d0 = getMLDecision s0 (rand n) ∧
      ((d0.action = "FOLD" ∧ L = [Event.decisionRequest s0 d0] ∧ final = s0 ∧ m = n + 1) ∨
       (d0.action ≠ "FOLD" ∧ ∃ c0 c1 c2 s1 d1,
          isValidCard c0 = true ∧ isValidCard c1 = true ∧ isValidCard c2 = true ∧
          s1 = { s0 with currentRound := "Flop",
                         communityCards := ((s0.communityCards.set 0 c0).set 1 c1).set 2 c2,
                         communityCardCount := 3 } ∧
          d1 = getMLDecision s1 (rand (n + 1)) ∧
          ((d1.action = "FOLD" ∧
              L = [Event.decisionRequest s0 d0, Event.cardAccepted c0, Event.cardAccepted c1,
                   Event.cardAccepted c2, Event.countAssigned 3, Event.decisionRequest s1 d1] ∧
              final = s1 ∧ m = n + 2) ∨
           (d1.action ≠ "FOLD" ∧ ∃ c3 s2 d2, isValidCard c3 = true ∧
              s2 = { s1 with currentRound := "Turn",
                             communityCards := s1.communityCards.set 3 c3,
                             communityCardCount := 4 } ∧
              d2 = getMLDecision s2 (rand (n + 2)) ∧
              ((d2.action = "FOLD" ∧
                  L = [Event.decisionRequest s0 d0, Event.cardAccepted c0,
                       Event.cardAccepted c1, Event.cardAccepted c2, Event.countAssigned 3,
                       Event.decisionRequest s1 d1, Event.cardAccepted c3,
                       Event.countAssigned 4, Event.decisionRequest s2 d2] ∧
                  final = s2 ∧ m = n + 3) ∨
               (d2.action ≠ "FOLD" ∧ ∃ c4 s3 d3, isValidCard c4 = true ∧
                  s3 = { s2 with currentRound := "River",
                                 communityCards := s2.communityCards.set 4 c4,
                                 communityCardCount := 5 } ∧
                  d3 = getMLDecision s3 (rand (n + 3)) ∧
                  L = [Event.decisionRequest s0 d0, Event.cardAccepted c0,
                       Event.cardAccepted c1, Event.cardAccepted c2, Event.countAssigned 3,
                       Event.decisionRequest s1 d1, Event.cardAccepted c3,
                       Event.countAssigned 4, Event.decisionRequest s2 d2,
                       Event.cardAccepted c4, Event.countAssigned 5,
                       Event.decisionRequest s3 d3] ∧
                  final = s3 ∧ m = n + 4)))))) := by
  obtain ⟨rest, hL, R⟩ := R
  refine ⟨_, _, rfl, rfl, ?_⟩
  split_ifs at R with h0
  · obtain ⟨rfl, hf, hm⟩ := R
    exact Or.inl ⟨h0, hL, hf, hm⟩
  refine Or.inr ⟨h0, ?_⟩
  obtain ⟨c0, c1, c2, v0, v1, v2, rest1, hL1, R⟩ := R
  refine ⟨c0, c1, c2, _, _, v0, v1, v2, rfl, rfl, ?_⟩
  split_ifs at R with h1
  · obtain ⟨rfl, hf, hm⟩ := R
    exact Or.inl ⟨h1, by rw [hL, hL1]; rfl, hf, hm⟩
  refine Or.inr ⟨h1, ?_⟩
  obtain ⟨c3, v3, rest2, hL2, R⟩ := R
  refine ⟨c3, _, _, v3, rfl, rfl, ?_⟩
  split_ifs at R with h2
  · obtain ⟨rfl, hf, hm⟩ := R
    exact Or.inl ⟨h2, by rw [hL, hL1, hL2]; rfl, hf, hm⟩
  refine Or.inr ⟨h2, ?_⟩
  obtain ⟨c4, v4, hL3, hf, hm⟩ := R
  exact ⟨c4, _, _, v4, rfl, rfl, by rw [hL, hL1, hL2, hL3]; rfl, hf, hm⟩

/-! ## Arrays -/

theorem board_toList (v : Mathlib.Vector (List Char) 5) (c0 c1 c2 c3 c4 : List Char) :
    (((((v.set 0 c0).set 1 c1).set 2 c2).set 3 c3).set 4 c4).toList = [c0, c1, c2, c3, c4] := by
  obtain ⟨l, hl⟩ := v
  match l, hl with
  | [_, _, _, _, _], _ => rfl

theorem board_take3 (v : Mathlib.Vector (List Char) 5) (c0 c1 c2 : List Char) :
    (((v.set 0 c0).set 1 c1).set 2 c2).toList.take 3 = [c0, c1, c2] := by
  obtain ⟨l, hl⟩ := v
  match l, hl with
  | [_, _, _, _, _], _ => rfl

theorem board_take4 (v : Mathlib.Vector (List Char) 5) (c0 c1 c2 c3 : List Char) :
    ((((v.set 0 c0).set 1 c1).set 2 c2).set 3 c3).toList.take 4 = [c0, c1, c2, c3] := by
  obtain ⟨l, hl⟩ := v
  match l, hl with
  | [_, _, _, _, _], _ => rfl

theorem hand_toList (v : Mathlib.Vector (List Char) 2) (c0 c1 : List Char) :
    ((v.set 0 c0).set 1 c1).toList = [c0, c1] := by
  obtain ⟨l, hl⟩ := v
  match l, hl with
  | [_, _], _ => rfl

theorem rejectedTokens_map (f : List Char → List Char) (toks : List (List Char)) :
    rejectedTokens (toks.map (fun t => Event.cardRejected (f t))) = toks.map f := by
  induction toks with
  | nil => rfl
  | cons t toks ih => simp [rejectedTokens, ih]

/-! ## Runs that reach the river -/

theorem playBettingRounds_full {rand : Nat → Nat} {fuel : Nat} {self : PokerMLInterface}
    {w : World} {r : PokerMLInterface × World} {ev' : List Event}
    (h : playBettingRounds rand fuel self w = some r) (hl' : r.2.log = w.log ++ ev')
    (hno : ∀ x ∈ (decisions ev').take 3, x.2.action ≠ "FOLD") :
    ((decisions ev').map (fun x => x.1.currentRound) = ["Pre-flop", "Flop", "Turn", "River"] ∧
      (decisions ev').map (fun x => x.1.communityCardCount) =
        [self.communityCardCount, 3, 4, 5] ∧
      r.2.randCalls = w.randCalls + 4 ∧
      countHistory 0 0 ev' = [(3, 3, 1), (4, 4, 2), (5, 5, 3)] ∧
      (acceptedCards ev').length = 5 ∧
      (∀ c ∈ acceptedCards ev', isValidCard c = true) ∧
      r.1.communityCards.toList = acceptedCards ev' ∧
      r.1.communityCardCount = 5 ∧
      ev'.getLast? = ((decisions ev')[3]?).map (fun x => Event.decisionRequest x.1 x.2) ∧
      ((decisions ev')[3]?).map (fun x => x.1) = some r.1) ∧
    r.1.playerHand = self.playerHand := by
  obtain ⟨L, j, ⟨hr, ev, hl, ho, hg⟩, R⟩ := playBettingRounds_run h
  obtain rfl : ev' = ev := List.append_cancel_left (hl'.symm.trans hl)
  rw [← decisions_observable, ho] at hno ⊢
  rw [← acceptedCards_observable, ← countHistory_observable, ho, hg, hr]
  obtain ⟨s0, d0, hs0, hd0, R⟩ := R.cases
  rcases R with ⟨f0, rfl, -, -⟩ | ⟨f0, c0, c1, c2, s1, d1, v0, v1, v2, hs1, hd1, R⟩
  · exact absurd f0 (hno (s0, d0) (by simp [decisions]))
  rcases R with ⟨f1, rfl, -, -⟩ | ⟨f1, c3, s2, d2, v3, hs2, hd2, R⟩
  · exact absurd f1 (hno (s1, d1) (by simp [decisions]))
  rcases R with ⟨f2, rfl, -, -⟩ | ⟨f2, c4, s3, d3, v4, hs3, hd3, rfl, hf, hm⟩
  · exact absurd f2 (hno (s2, d2) (by simp [decisions]))
  have e3 : s3.communityCards.toList = [c0, c1, c2, c3, c4] := by
    rw [hs3, hs2, hs1, hs0]; exact board_toList _ _ _ _ _ _
  simp only [decisions, acceptedCards, countHistory, List.map_cons, List.map_nil]
  refine ⟨⟨by rw [hs0, hs1, hs2, hs3], by rw [hs0, hs1, hs2, hs3], by omega, by simp,
    by simp, ?_, by rw [hf, e3], by rw [hf, hs3], by simp, by simp [hf]⟩,
    by rw [hf, hs3, hs2, hs1, hs0]⟩
  intro c hc
  simp only [List.mem_cons, List.mem_singleton, List.not_mem_nil, or_false] at hc
  rcases hc with rfl | rfl | rfl | rfl | rfl <;> assumption

theorem playBettingRounds_full_fed (rand : Nat → Nat) (fuel : Nat) (self : PokerMLInterface)
    (w : World) {toks : List (List Char)}
    (hno : ∀ j, j < 3 → ∀ s, (getMLDecision s (rand (w.randCalls + j))).action ≠ "FOLD")
    (hv : ∀ t ∈ toks, isValidCard (t.map Char.toUpper) = true) (hlen : 5 ≤ toks.length)
    (hcin : Supply w toks) :
    ∃ r ev, playBettingRounds rand (fuel + 1) self w = some r ∧ r.2.log = w.log ++ ev ∧
      (∀ x ∈ (decisions ev).take 3, x.2.action ≠ "FOLD") ∧ rejectedTokens ev = [] ∧
      acceptedCards ev = (toks.take 5).map (List.map Char.toUpper) := by
  have h0 := mt (action_fold_iff self _).2 (hno 0 (by decide) self)
  have h1 := mt (action_fold_iff self _).2 (hno 1 (by decide) self)
  have h2 := mt (action_fold_iff self _).2 (hno 2 (by decide) self)
  have hneed : roundsCards rand w.randCalls = 5 := by
    simp only [Nat.add_zero] at h0
    simp [roundsCards, flopCards, turnCards, h0, h1, h2]
  obtain ⟨r, l, hr, -, -, ev, hl, hrej, hacc⟩ := playBettingRounds_fed rand fuel
    self hcin hv (by omega)
  refine ⟨r, ev, hr, hl, ?_, hrej, by rw [hacc, hneed]⟩
  obtain ⟨L, j, ⟨hr', ev', hl', ho, hg⟩, R⟩ := playBettingRounds_run hr
  obtain rfl : ev' = ev := List.append_cancel_left (hl'.symm.trans hl)
  rw [← decisions_observable, ho]
  obtain ⟨s0, d0, hs0, hd0, R⟩ := R.cases
  have a0 : d0.action ≠ "FOLD" := by rw [hd0]; exact hno 0 (by decide) s0
  rcases R with ⟨f0, -⟩ | ⟨-, c0, c1, c2, s1, d1, -, -, -, -, hd1, R⟩
  · exact absurd f0 a0
  have a1 : d1.action ≠ "FOLD" := by rw [hd1]; exact hno 1 (by decide) s1
  rcases R with ⟨f1, -⟩ | ⟨-, c3, s2, d2, -, -, hd2, R⟩
  · exact absurd f1 a1
  have a2 : d2.action ≠ "FOLD" := by rw [hd2]; exact hno 2 (by decide) s2
  rcases R with ⟨f2, -⟩ | ⟨-, c4, s3, d3, -, -, -, rfl, -, -⟩
  · exact absurd f2 a2
  intro x hx
  simp only [decisions, List.take, List.mem_cons, List.mem_singleton, List.not_mem_nil,
    or_false] at hx
  rcases hx with rfl | rfl | rfl <;> assumption

/-! ## A hand of duplicates -/

theorem getValidCardLoop_cin : ∀ (fuel : Nat) (card : List Char) (w1 w2 : World),
    w1.cin = w2.cin →
    (getValidCardLoop fuel card w1).map (fun r => (r.1, r.2.cin)) =
      (getValidCardLoop fuel card w2).map (fun r => (r.1, r.2.cin)) := by
  intro fuel
  induction fuel with
  | zero => intro card w1 w2 _; rfl
  | succ fuel ih =>
    intro card w1 w2 h
    simp only [getValidCardLoop, h]
    split_ifs
    · rfl
    · exact ih _ _ _ rfl

theorem getValidAmount_zero {N : NumGet}
    (hN : ∀ rest, N.extractDouble ('\n' :: '0' :: '\n' :: rest) = (some 0, '\n' :: rest))
    (fuel : Nat) (w : World) (rest : List Char) (h : w.cin = '\n' :: '0' :: '\n' :: rest) :
    getValidAmount N (fuel + 1) 0 w = some (0, { w with cin := '\n' :: rest }) := by
  simp [getValidAmount, h, hN]

theorem collectAmounts_zeros {N : NumGet}
    (hN : ∀ rest, N.extractDouble ('\n' :: '0' :: '\n' :: rest) = (some 0, '\n' :: rest))
    (fuel : Nat) (rest : List Char) : ∀ (n : Nat) (amounts : List ℚ) (w : World),
    w.cin = '\n' :: (zeros n ++ rest) →
    collectAmounts N (fuel + 1) n amounts w =
      some (amounts ++ List.replicate n 0, { w with cin := '\n' :: rest }) := by
  intro n
  induction n with
  | zero =>
    intro amounts w h
    simp only [zeros, List.nil_append] at h
    simp [collectAmounts, ← h]
  | succ n ih =>
    intro amounts w h
    have h1 := getValidAmount_zero hN fuel w (zeros n ++ rest) (by rw [h]; rfl)
    simp only [collectAmounts, h1]
    rw [ih _ _ rfl]
    simp [List.replicate_succ]

/-! ## The iteration bound -/

theorem getValidCardLoop_succ : ∀ (fuel : Nat) (card : List Char) (w : World)
    (r : List Char × World), getValidCardLoop fuel card w = some r →
    getValidCardLoop (fuel + 1) card w = some r := by
  intro fuel
  induction fuel with
  | zero => intro card w r h; simp [getValidCardLoop] at h
  | succ fuel ih =>
    intro card w r h
    rw [getValidCardLoop] at h ⊢
    dsimp only at h ⊢
    split_ifs at h ⊢ with hv
    · exact h
    · exact ih _ _ _ h

theorem getValidCard_mono {fuel bound : Nat} {w : World} {r : List Char × World}
    (h : getValidCard fuel w = some r) (hle : fuel ≤ bound) :
    getValidCard bound w = some r := by
  induction hle with
  | refl => exact h
  | step _ ih => exact getValidCardLoop_succ _ _ _ _ ih

/-! # The claims -/

/-! ## The claims about `isValidCard` and `getMLDecision` -/

/-- C2: `isValidCard s` holds exactly when `s` has two characters, the uppercase
of the first is one of the thirteen ranks and the uppercase of the second is one
of the four suits.  Hence uppercasing a string does not change the verdict, each
of the 13 * 4 = 52 rank/suit pairs is accepted in every mix of upper and lower
case, and every string whose length is not 2 is rejected. -/
theorem C2_isValidCard_iff :
    (∀ s : List Char, isValidCard s = true ↔
        s.length = 2 ∧ (s.getD 0 ' ').toUpper ∈ ranks ∧ (s.getD 1 ' ').toUpper ∈ suits) ∧
    (∀ s : List Char, isValidCard (s.map Char.toUpper) = isValidCard s) ∧
    (ranks.length * suits.length = 52 ∧ ranks.Nodup ∧ suits.Nodup) ∧
    (∀ r u : Char, r.toUpper ∈ ranks → u.toUpper ∈ suits → isValidCard [r, u] = true) ∧
    (∀ r ∈ ranks, ∀ u ∈ suits,
        isValidCard [r, u] = true ∧ isValidCard [r.toLower, u] = true ∧
        isValidCard [r, u.toLower] = true ∧ isValidCard [r.toLower, u.toLower] = true) ∧
    (∀ s : List Char, s.length ≠ 2 → isValidCard s = false) := by
  refine ⟨?_, isValidCard_map_toUpper, by decide, ?_, by decide, ?_⟩
  · intro s
    rw [isValidCard_iff]
    constructor
    · rintro ⟨r, u, rfl, hr, hu⟩
      exact ⟨rfl, hr, hu⟩
    · rintro ⟨hl, hr, hu⟩
      match s, hl with
      | [r, u], _ => exact ⟨r, u, rfl, hr, hu⟩
  · intro r u hr hu
    exact (isValidCard_pair r u).2 ⟨hr, hu⟩
  · intro s hs
    by_contra h
    exact hs (isValidCard_length (by simpa using h))

/-- C2 on the tokens `tD`, `qs`, `AH`, `ah`, `10H` and `1H`. -/
theorem C2_isValidCard_iff_witness :
    isValidCard ['t', 'D'] = true ∧ isValidCard ['q', 's'] = true ∧
      isValidCard ['A', 'H'] = true ∧ isValidCard ['a', 'h'] = true ∧
      isValidCard ['1', '0', 'H'] = false ∧
      ¬ (isValidCard ['1', 'H'] = true) :=
  ⟨(C2_isValidCard_iff.1 ['t', 'D']).2 ⟨by decide, by decide, by decide⟩,
   C2_isValidCard_iff.2.2.2.1 'q' 's' (by decide) (by decide),
   (C2_isValidCard_iff.2.2.2.2.1 'A' (by decide) 'H' (by decide)).1,
   (C2_isValidCard_iff.2.2.2.2.1 'A' (by decide) 'H' (by decide)).2.2.2,
   C2_isValidCard_iff.2.2.2.2.2 ['1', '0', 'H'] (by decide),
   fun h => absurd ((C2_isValidCard_iff.1 ['1', 'H']).1 h).2.1 (by decide)⟩

/-- C4: whatever `rand()` returns and whatever the game state is, a decision of
`getMLDecision` whose action is FOLD has amount 0. -/
theorem C4_fold_amount_zero (self : PokerMLInterface) (randValue : Nat)
    (h : (getMLDecision self randValue).action = "FOLD") :
    (getMLDecision self randValue).amount = 0 := by
  rw [getMLDecision_fold self randValue ((action_fold_iff self randValue).1 h)]

/-- C4 in the scenario session with `rand()` returning 1019. -/
theorem C4_fold_amount_zero_witness :
    (getMLDecision scenarioGame 1019).action = "FOLD" ∧
      (getMLDecision scenarioGame 1019).amount = 0 :=
  ⟨by decide!, C4_fold_amount_zero scenarioGame 1019 (by decide!)⟩

/-- C7, as stated, fails for a big blind of 0, which `setupGame` accepts: with
`rand()` returning 60 the action is RAISE and the amount is 0, which does not
exceed the big blind. -/
theorem C7_raise_not_above_zero_blind :
    setupGame digitsNumGet 1 blankGame { cin := zeroBlindInput, randCalls := 0, log := [] } =
        some (zeroBlindGame,
          { cin := ['\n'], randCalls := 0,
            log := [Event.cardAccepted ['A', 'H'], Event.cardAccepted ['K', 'S']] }) ∧
      0 ≤ zeroBlindGame.bigBlind ∧
      (getMLDecision zeroBlindGame 60).action = "RAISE" ∧
      (getMLDecision zeroBlindGame 60).amount = 0 ∧
      ¬ ((getMLDecision zeroBlindGame 60).amount > zeroBlindGame.bigBlind) := by
  decide!

/-- C7, amended: a CALL decision has the big blind as its amount; a RAISE
decision has amount `b * (2 + r / 100)` with `r = rand() % 100`, which is
strictly greater than the big blind `b` when `b > 0` and is 0 when `b = 0`. -/
theorem C7_call_and_raise_amounts (self : PokerMLInterface) (randValue : Nat) :
    ((getMLDecision self randValue).action = "CALL" →
        (getMLDecision self randValue).amount = self.bigBlind) ∧
    ((getMLDecision self randValue).action = "RAISE" →
        (getMLDecision self randValue).amount =
          self.bigBlind * (2 + ((randValue % 100 : Nat) : ℚ) / 100) ∧
        (0 < self.bigBlind → (getMLDecision self randValue).amount > self.bigBlind) ∧
        (self.bigBlind = 0 → (getMLDecision self randValue).amount = 0)) := by
  constructor
  · intro h
    obtain ⟨h1, h2⟩ := (action_call_iff self randValue).1 h
    rw [getMLDecision_call self randValue h1 h2]
  · intro h
    have h60 := (action_raise_iff self randValue).1 h
    rw [getMLDecision_raise self randValue h60]
    refine ⟨rfl, ?_, ?_⟩
    · intro hb
      have hr : (0 : ℚ) ≤ ((randValue % 100 : Nat) : ℚ) / 100 := by positivity
      show self.bigBlind * (2 + ((randValue % 100 : Nat) : ℚ) / 100) > self.bigBlind
      nlinarith
    · intro hb
      show self.bigBlind * (2 + ((randValue % 100 : Nat) : ℚ) / 100) = 0
      rw [hb, zero_mul]

/-- C7 as amended, in the scenario session (big blind 2) and with a big blind of
0. -/
theorem C7_call_and_raise_amounts_witness :
    (getMLDecision scenarioGame 40).amount = scenarioGame.bigBlind ∧
      (getMLDecision scenarioGame 70).amount > scenarioGame.bigBlind ∧
      (getMLDecision scenarioGame 70).amount = 2 * (2 + ((70 % 100 : Nat) : ℚ) / 100) ∧
      (getMLDecision zeroBlindGame 70).amount = 0 :=
  ⟨(C7_call_and_raise_amounts scenarioGame 40).1 (by decide!),
   ((C7_call_and_raise_amounts scenarioGame 70).2 (by decide!)).2.1 (by decide!),
   ((C7_call_and_raise_amounts scenarioGame 70).2 (by decide!)).1,
   ((C7_call_and_raise_amounts zeroBlindGame 70).2 (by decide!)).2.2 (by decide!)⟩

/-- C10: the decision of `getMLDecision` is determined by the big blind and by
`rand() % 100`: two game states with the same big blind get the same action,
amount and reasoning, whatever their cards, street, stacks and calls are (a
stack of 0 included); the action is FOLD exactly when `rand() % 100 < 20`, CALL
exactly when it is at least 20 and below 60, and RAISE exactly when it is at
least 60. -/
theorem C10_decision_depends_on_rand_and_bigBlind :
    (∀ (s t : PokerMLInterface) (r r' : Nat), s.bigBlind = t.bigBlind →
        r % 100 = r' % 100 → getMLDecision s r = getMLDecision t r') ∧
    (∀ (s : PokerMLInterface) (r : Nat),
        ((getMLDecision s r).action = "FOLD" ↔ r % 100 < 20) ∧
        ((getMLDecision s r).action = "CALL" ↔ 20 ≤ r % 100 ∧ r % 100 < 60) ∧
        ((getMLDecision s r).action = "RAISE" ↔ 60 ≤ r % 100)) := by
  refine ⟨?_, fun s r => ⟨action_fold_iff s r, action_call_iff s r, action_raise_iff s r⟩⟩
  intro s t r r' hb hr
  rcases getMLDecision_cases s r with ⟨h, e⟩ | ⟨h1, h2, e⟩ | ⟨h, e⟩
  · rw [e, getMLDecision_fold t r' (hr ▸ h)]
  · rw [e, getMLDecision_call t r' (hr ▸ h1) (hr ▸ h2), hb]
  · rw [e, getMLDecision_raise t r' (hr ▸ h), hb, hr]

/-- C10 on the scenario session and a session that shares only its big blind. -/
theorem C10_decision_depends_on_rand_and_bigBlind_witness :
    otherGame.playerPot = 0 ∧
      getMLDecision scenarioGame 70 = getMLDecision otherGame 4170 ∧
      getMLDecision scenarioGame 45 = getMLDecision otherGame 45 ∧
      (getMLDecision otherGame 119).action = "FOLD" :=
  ⟨rfl,
   C10_decision_depends_on_rand_and_bigBlind.1 scenarioGame otherGame 70 4170 rfl (by decide),
   C10_decision_depends_on_rand_and_bigBlind.1 scenarioGame otherGame 45 45 rfl rfl,
   ((C10_decision_depends_on_rand_and_bigBlind.2 otherGame 119).1).2 (by decide)⟩

/-! ## The claims about `playBettingRounds` -/

/-- C1: if the k-th decision of a run of `playBettingRounds` (k = 1, 2, 3) is
FOLD, the run requests exactly k decisions (and draws `rand()` k times), that
decision is the last event of the run, so no token is read after it, and
exactly 0, 3 or 4 community cards have been read; the count of community cards
is then the one on entry, 3 or 4.  On a supply of valid tokens holding that many
cards the run does return. -/
theorem C1_fold_ends_hand (rand : Nat → Nat) (fuel : Nat) (self : PokerMLInterface)
    (w : World) :
    (∀ (r : PokerMLInterface × World) (ev : List Event) (k : Nat) (s : PokerMLInterface)
        (d : MLDecision),
      playBettingRounds rand fuel self w = some r → r.2.log = w.log ++ ev →
      1 ≤ k → k ≤ 3 → (decisions ev)[k - 1]? = some (s, d) → d.action = "FOLD" →
        (decisions ev).length = k ∧ r.2.randCalls = w.randCalls + k ∧
        d = getMLDecision s (rand (w.randCalls + (k - 1))) ∧
        ev.getLast? = some (Event.decisionRequest s d) ∧
        (acceptedCards ev).length = [0, 3, 4].getD (k - 1) 0 ∧
        r.1 = s ∧
        r.1.communityCardCount = [self.communityCardCount, 3, 4].getD (k - 1) 0) ∧
    (∀ (k : Nat) (toks : List (List Char)), 1 ≤ k → k ≤ 3 →
      (∀ s, (getMLDecision s (rand (w.randCalls + (k - 1)))).action = "FOLD") →
      (∀ t ∈ toks, isValidCard (t.map Char.toUpper) = true) →
      [0, 3, 4].getD (k - 1) 0 ≤ toks.length → w.cin = feed toks → 1 ≤ fuel →
      ∃ r, playBettingRounds rand fuel self w = some r) := by
  constructor
  · intro r ev' k s d h hl' hk1 hk3 hdec hfold
    obtain ⟨L, j, ⟨hr, ev, hl, ho, hg⟩, R⟩ := playBettingRounds_run h
    obtain rfl : ev' = ev := List.append_cancel_left (hl'.symm.trans hl)
    rw [← decisions_observable, ho] at hdec ⊢
    rw [← acceptedCards_observable, ho, hg, hr]
    obtain ⟨s0, d0, hs0, hd0, R⟩ := R.cases
    have hc0 : s0.communityCardCount = self.communityCardCount := by rw [hs0]
    rcases R with ⟨f0, rfl, hf, hm⟩ | ⟨f0, c0, c1, c2, s1, d1, -, -, -, hs1, hd1, R⟩
    · interval_cases k <;> simp [decisions] at hdec
      obtain ⟨rfl, rfl⟩ := hdec
      simp [decisions, acceptedCards, hf, hm, hd0, hc0]
    have hc1 : s1.communityCardCount = 3 := by rw [hs1]
    rcases R with ⟨f1, rfl, hf, hm⟩ | ⟨f1, c3, s2, d2, -, hs2, hd2, R⟩
    · interval_cases k <;> simp [decisions] at hdec
      · exact absurd hfold (by rw [← hdec.2]; exact f0)
      · obtain ⟨rfl, rfl⟩ := hdec
        simp [decisions, acceptedCards, hf, hm, hd1, hc1]
    have hc2 : s2.communityCardCount = 4 := by rw [hs2]
    rcases R with ⟨f2, rfl, hf, hm⟩ | ⟨f2, c4, s3, d3, -, hs3, hd3, rfl, hf, hm⟩
    · interval_cases k <;> simp [decisions] at hdec
      · exact absurd hfold (by rw [← hdec.2]; exact f0)
      · exact absurd hfold (by rw [← hdec.2]; exact f1)
      · obtain ⟨rfl, rfl⟩ := hdec
        simp [decisions, acceptedCards, hf, hm, hd2, hc2]
    · interval_cases k <;> simp [decisions] at hdec
      · exact absurd hfold (by rw [← hdec.2]; exact f0)
      · exact absurd hfold (by rw [← hdec.2]; exact f1)
      · exact absurd hfold (by rw [← hdec.2]; exact f2)
  · intro k toks hk1 hk3 hfold hv hlen hcin hfuel
    obtain ⟨f, rfl⟩ : ∃ f, fuel = f + 1 := ⟨fuel - 1, by omega⟩
    have hf := (action_fold_iff self _).1 (hfold self)
    have hneed : roundsCards rand w.randCalls ≤ [0, 3, 4].getD (k - 1) 0 := by
      unfold roundsCards flopCards turnCards
      interval_cases k <;> simp at hf ⊢ <;> split_ifs <;> simp_all
    obtain ⟨r, _, hr, _⟩ := playBettingRounds_fed rand f self
      ⟨[], by simp, by simpa using hcin⟩ hv (le_trans hneed hlen)
    exact ⟨r, hr⟩

/-- C1 on the end-to-end scenario: CALL, RAISE, then FOLD on the turn. -/
theorem C1_fold_ends_hand_witness :
    ((decisions scenarioTrace).length = 3 ∧ (3 : Nat) = scenarioWorld.randCalls + 3 ∧
      foldDecision =
        getMLDecision scenarioTurn (scenarioRand (scenarioWorld.randCalls + (3 - 1))) ∧
      scenarioTrace.getLast? = some (Event.decisionRequest scenarioTurn
        foldDecision) ∧
      (acceptedCards scenarioTrace).length = [0, 3, 4].getD (3 - 1) 0 ∧
      scenarioTurn = scenarioTurn ∧
      scenarioTurn.communityCardCount = [scenarioHand.communityCardCount, 3, 4].getD (3 - 1) 0) ∧
    ∃ r, playBettingRounds scenarioRand 1 scenarioHand scenarioWorld = some r :=
  ⟨(C1_fold_ends_hand scenarioRand 1 scenarioHand scenarioWorld).1
      (scenarioTurn, { cin := ['\n'], randCalls := 3, log := scenarioTrace }) scenarioTrace 3
      scenarioTurn foldDecision
      (by decide!) (by decide!) (by decide) (by decide) (by decide!) (by decide),
   (C1_fold_ends_hand scenarioRand 1 scenarioHand scenarioWorld).2 3
      [['2', 'D'], ['7', 'C'], ['9', 'H'], ['T', 'S']] (by decide) (by decide)
      (fun s => (action_fold_iff s _).2 (by decide)) (by decide) (by decide) (by decide!)
      (by decide)⟩

/-- C5: in a run of `playBettingRounds` in which none of the first three
decisions is FOLD, exactly four decisions are requested, on the streets Pre-flop,
Flop, Turn and River in this order, with `rand()` drawn four times; the count
is set to 3, 4 and 5 when 3, 4 and 5 community cards have been accepted and 1, 2
and 3 decisions requested; the five accepted cards are valid and are the
entries 0..4 of `communityCards` in the order of acceptance; and the fourth
decision is the last event of the run, whatever its action.  On a supply of at
least five valid tokens such a run returns and stores the first five tokens in
upper case. -/
theorem C5_four_streets (rand : Nat → Nat) (fuel : Nat) (self : PokerMLInterface)
    (w : World) :
    (∀ (r : PokerMLInterface × World) (ev : List Event),
      playBettingRounds rand fuel self w = some r → r.2.log = w.log ++ ev →
      (∀ x ∈ (decisions ev).take 3, x.2.action ≠ "FOLD") →
        (decisions ev).map (fun x => x.1.currentRound) = ["Pre-flop", "Flop", "Turn", "River"] ∧
        (decisions ev).map (fun x => x.1.communityCardCount) =
          [self.communityCardCount, 3, 4, 5] ∧
        r.2.randCalls = w.randCalls + 4 ∧
        countHistory 0 0 ev = [(3, 3, 1), (4, 4, 2), (5, 5, 3)] ∧
        (acceptedCards ev).length = 5 ∧
        (∀ c ∈ acceptedCards ev, isValidCard c = true) ∧
        r.1.communityCards.toList = acceptedCards ev ∧
        r.1.communityCardCount = 5 ∧
        ev.getLast? = ((decisions ev)[3]?).map (fun x => Event.decisionRequest x.1 x.2) ∧
        ((decisions ev)[3]?).map (fun x => x.1) = some r.1) ∧
    (∀ toks : List (List Char),
      (∀ j, j < 3 → ∀ s, (getMLDecision s (rand (w.randCalls + j))).action ≠ "FOLD") →
      (∀ t ∈ toks, isValidCard (t.map Char.toUpper) = true) →
      5 ≤ toks.length → w.cin = feed toks → 1 ≤ fuel →
      ∃ r, playBettingRounds rand fuel self w = some r ∧
        r.1.communityCards.toList = (toks.take 5).map (List.map Char.toUpper)) := by
  constructor
  · intro r ev h hl hno
    exact (playBettingRounds_full h hl hno).1
  · intro toks hno hv hlen hcin hfuel
    obtain ⟨f, rfl⟩ : ∃ f, fuel = f + 1 := ⟨fuel - 1, by omega⟩
    obtain ⟨r, ev, hr, hl, hno', -, hacc⟩ := playBettingRounds_full_fed rand f
      self w hno hv hlen ⟨[], by simp, by simpa using hcin⟩
    exact ⟨r, hr, by rw [(playBettingRounds_full hr hl hno').1.2.2.2.2.2.2.1, hacc]⟩

/-- C5 on betting rounds in which every decision is CALL. -/
theorem C5_four_streets_witness :
    ((decisions riverTrace).map (fun x => x.1.currentRound) =
        ["Pre-flop", "Flop", "Turn", "River"] ∧
      (decisions riverTrace).map (fun x => x.1.communityCardCount) =
        [scenarioHand.communityCardCount, 3, 4, 5] ∧
      (4 : Nat) = riverWorld.randCalls + 4 ∧
      countHistory 0 0 riverTrace = [(3, 3, 1), (4, 4, 2), (5, 5, 3)] ∧
      (acceptedCards riverTrace).length = 5 ∧
      (∀ c ∈ acceptedCards riverTrace, isValidCard c = true) ∧
      scenarioRiver.communityCards.toList = acceptedCards riverTrace ∧
      scenarioRiver.communityCardCount = 5 ∧
      riverTrace.getLast? =
        ((decisions riverTrace)[3]?).map (fun x => Event.decisionRequest x.1 x.2) ∧
      ((decisions riverTrace)[3]?).map (fun x => x.1) = some scenarioRiver) ∧
    ∃ r, playBettingRounds callRand 1 scenarioHand mixedWorld = some r ∧
      r.1.communityCards.toList = (mixedTokens.take 5).map (List.map Char.toUpper) :=
  ⟨(C5_four_streets callRand 1 scenarioHand riverWorld).1
      (scenarioRiver, { cin := ['\n'], randCalls := 4, log := riverTrace }) riverTrace
      (by decide!) (by decide!) (by decide!),
   (C5_four_streets callRand 1 scenarioHand mixedWorld).2 mixedTokens
      (fun j _ s => by rw [Ne, action_fold_iff]; simp [callRand]) (by decide) (by decide) rfl
      (by decide)⟩

/-! ## The claims about `playHand` and `setupGame` -/

/-- C3: in a hand (`playHand`, which ends in `playBettingRounds`) the values
assigned to `communityCardCount` are an initial part of 0, 3, 4, 5, and so are
its values at the successive decision requests, of which there is at least
one: 0 at the first, 3 at the second, 4 at the third, 5 at the fourth, strictly
increasing.  The count is set to 0 before any card is accepted, to 3 when five
cards have been accepted (the two hole cards and the three flop cards) and one
decision requested, to 4 after the sixth card and the second decision, to 5
after the seventh card and the third decision.  The count the hand leaves is
the last value assigned. -/
theorem C3_count_moves_0_3_4_5 (N : NumGet) (rand : Nat → Nat) (fuel : Nat)
    (self : PokerMLInterface) (w : World) (r : PokerMLInterface × World) (ev : List Event)
    (h : playHand N rand fuel self w = some r) (hl : r.2.log = w.log ++ ev) :
    decisions ev ≠ [] ∧
    (decisions ev).map (fun x => x.1.communityCardCount) <+: [0, 3, 4, 5] ∧
    ((decisions ev).map (fun x => x.1.communityCardCount)).Pairwise (fun a b => a < b) ∧
    (countHistory 0 0 ev).map (fun x => x.1) <+: [0, 3, 4, 5] ∧
    countHistory 0 0 ev <+: [(0, 0, 0), (3, 5, 1), (4, 6, 2), (5, 7, 3)] ∧
    (countHistory 0 0 ev).length = (decisions ev).length ∧
    ((countHistory 0 0 ev).getLast?).map (fun x => x.1) = some r.1.communityCardCount := by
  obtain ⟨L, k, ⟨-, ev', hl', ho, -⟩, H⟩ := playHand_run h
  obtain rfl : ev = ev' := List.append_cancel_left (hl.symm.trans hl')
  rw [← decisions_observable, ← countHistory_observable, ho]
  obtain ⟨h0, h1, pot, calls, rest, -, -, -, -, -, rfl, R⟩ := H
  obtain ⟨s0, d0, hs0, -, R⟩ := R.cases
  have e0 : s0.communityCardCount = 0 := by rw [hs0]
  rcases R with ⟨-, rfl, hf, -⟩ | ⟨-, c0, c1, c2, s1, d1, -, -, -, hs1, -, R⟩
  · simp only [List.cons_append, List.nil_append, decisions, countHistory, List.map_cons,
      List.map_nil, e0, hf]
    refine ⟨List.cons_ne_nil _ _, ?_, ?_, ?_, ?_, rfl, rfl⟩ <;> decide
  have e1 : s1.communityCardCount = 3 := by rw [hs1]
  rcases R with ⟨-, rfl, hf, -⟩ | ⟨-, c3, s2, d2, -, hs2, -, R⟩
  · simp only [List.cons_append, List.nil_append, decisions, countHistory, List.map_cons,
      List.map_nil, e0, e1, hf]
    refine ⟨List.cons_ne_nil _ _, ?_, ?_, ?_, ?_, rfl, rfl⟩ <;> decide
  have e2 : s2.communityCardCount = 4 := by rw [hs2]
  rcases R with ⟨-, rfl, hf, -⟩ | ⟨-, c4, s3, d3, -, hs3, -, rfl, hf, -⟩
  · simp only [List.cons_append, List.nil_append, decisions, countHistory, List.map_cons,
      List.map_nil, e0, e1, e2, hf]
    refine ⟨List.cons_ne_nil _ _, ?_, ?_, ?_, ?_, rfl, rfl⟩ <;> decide
  have e3 : s3.communityCardCount = 5 := by rw [hs3]
  simp only [List.cons_append, List.nil_append, decisions, countHistory, List.map_cons,
    List.map_nil, e0, e1, e2, e3, hf]
  refine ⟨List.cons_ne_nil _ _, ?_, ?_, ?_, ?_, rfl, rfl⟩ <;> decide

/-- C3 on the scenario's whole hand. -/
theorem C3_count_moves_0_3_4_5_witness :
    decisions handTrace ≠ [] ∧
    (decisions handTrace).map (fun x => x.1.communityCardCount) <+: [0, 3, 4, 5] ∧
    ((decisions handTrace).map (fun x => x.1.communityCardCount)).Pairwise (fun a b => a < b) ∧
    (countHistory 0 0 handTrace).map (fun x => x.1) <+: [0, 3, 4, 5] ∧
    countHistory 0 0 handTrace <+: [(0, 0, 0), (3, 5, 1), (4, 6, 2), (5, 7, 3)] ∧
    (countHistory 0 0 handTrace).length = (decisions handTrace).length ∧
    ((countHistory 0 0 handTrace).getLast?).map (fun x => x.1) =
      some scenarioTurn.communityCardCount :=
  C3_count_moves_0_3_4_5 digitsNumGet scenarioRand 1 scenarioGame handWorld
    (scenarioTurn, { cin := ['\n'], randCalls := 3, log := handTrace }) handTrace
    (by decide!) (by decide!)

/-- C8: when `setupGame` returns, the number of opponents is between 1 and 8,
there is one opponent stack per opponent, and the player's stack, the opponent
stacks and both blinds are at least 0.  A later `playHand`, started with a
number of opponents that is not negative, requests at least one decision; at
every decision request of the hand (the first included) there is one opponent
call per opponent, each at least 0, and the stack just read is at least 0; and
neither at those requests nor at the end has `playHand` changed the number of
opponents, the opponent stacks or the blinds. -/
theorem C8_session_well_formed (N : NumGet) (rand : Nat → Nat) (fuel : Nat)
    (self : PokerMLInterface) (w : World) :
    (∀ r : PokerMLInterface × World, setupGame N fuel self w = some r →
      1 ≤ r.1.numOpponents ∧ r.1.numOpponents ≤ 8 ∧
      (r.1.opponentPots.length : Int) = r.1.numOpponents ∧
      0 ≤ r.1.playerPot ∧ (∀ p ∈ r.1.opponentPots, 0 ≤ p) ∧
      0 ≤ r.1.smallBlind ∧ 0 ≤ r.1.bigBlind) ∧
    (∀ (r : PokerMLInterface × World) (ev : List Event), 0 ≤ self.numOpponents →
      playHand N rand fuel self w = some r → r.2.log = w.log ++ ev →
      decisions ev ≠ [] ∧
      (∀ x ∈ decisions ev,
        (x.1.opponentCalls.length : Int) = self.numOpponents ∧
        (∀ a ∈ x.1.opponentCalls, 0 ≤ a) ∧ 0 ≤ x.1.playerPot ∧
        x.1.numOpponents = self.numOpponents ∧ x.1.opponentPots = self.opponentPots ∧
        x.1.smallBlind = self.smallBlind ∧ x.1.bigBlind = self.bigBlind) ∧
      (r.1.opponentCalls.length : Int) = self.numOpponents ∧
      (∀ a ∈ r.1.opponentCalls, 0 ≤ a) ∧ 0 ≤ r.1.playerPot ∧
      r.1.numOpponents = self.numOpponents ∧ r.1.opponentPots = self.opponentPots ∧
      r.1.smallBlind = self.smallBlind ∧ r.1.bigBlind = self.bigBlind) := by
  constructor
  · intro r h
    obtain ⟨⟨c0, c1, pot, n, pots, sb, bb, -, -, hp, n1, n8, hlen, hpos, hsb, hbb, hr⟩,
      -⟩ := setupGame_spec h
    rw [hr]
    refine ⟨n1, n8, ?_, hp, hpos, hsb, hbb⟩
    show (pots.length : Int) = n
    rw [hlen]
    exact Int.toNat_of_nonneg (by omega)
  · intro r ev hn h hl
    obtain ⟨L, k, ⟨-, ev', hl', ho, -⟩, H⟩ := playHand_run h
    obtain rfl : ev = ev' := List.append_cancel_left (hl.symm.trans hl')
    rw [← decisions_observable, ho]
    obtain ⟨h0, h1, pot, calls, rest, -, -, hp, hlen, hpos, rfl, R⟩ := H
    have Q : ∀ s : PokerMLInterface, s.opponentCalls = calls → s.playerPot = pot →
        s.numOpponents = self.numOpponents → s.opponentPots = self.opponentPots →
        s.smallBlind = self.smallBlind → s.bigBlind = self.bigBlind →
        ((s.opponentCalls.length : Int) = self.numOpponents ∧
        (∀ a ∈ s.opponentCalls, 0 ≤ a) ∧ 0 ≤ s.playerPot ∧
        s.numOpponents = self.numOpponents ∧ s.opponentPots = self.opponentPots ∧
        s.smallBlind = self.smallBlind ∧ s.bigBlind = self.bigBlind) := by
      intro s e1 e2 e3 e4 e5 e6
      refine ⟨?_, by rw [e1]; exact hpos, by rw [e2]; exact hp, e3, e4, e5, e6⟩
      rw [e1, hlen]
      exact Int.toNat_of_nonneg hn
    obtain ⟨s0, d0, hs0, -, R⟩ := R.cases
    have q0 := Q s0 (by rw [hs0]) (by rw [hs0]) (by rw [hs0]) (by rw [hs0]) (by rw [hs0])
      (by rw [hs0])
    rcases R with ⟨-, rfl, hf, -⟩ | ⟨-, c0, c1, c2, s1, d1, -, -, -, hs1, -, R⟩
    · refine ⟨by simp [decisions], ?_, hf ▸ q0⟩
      simp only [List.cons_append, List.nil_append, decisions, List.mem_singleton]
      rintro x rfl
      exact q0
    have q1 := Q s1 (by rw [hs1, hs0]) (by rw [hs1, hs0]) (by rw [hs1, hs0]) (by rw [hs1, hs0])
      (by rw [hs1, hs0]) (by rw [hs1, hs0])
    rcases R with ⟨-, rfl, hf, -⟩ | ⟨-, c3, s2, d2, -, hs2, -, R⟩
    · refine ⟨by simp [decisions], ?_, hf ▸ q1⟩
      simp only [List.cons_append, List.nil_append, decisions, List.mem_cons,
        List.mem_singleton, List.not_mem_nil, or_false]
      rintro x (rfl | rfl) <;> assumption
    have q2 := Q s2 (by rw [hs2, hs1, hs0]) (by rw [hs2, hs1, hs0]) (by rw [hs2, hs1, hs0])
      (by rw [hs2, hs1, hs0]) (by rw [hs2, hs1, hs0]) (by rw [hs2, hs1, hs0])
    rcases R with ⟨-, rfl, hf, -⟩ | ⟨-, c4, s3, d3, -, hs3, -, rfl, hf, -⟩
    · refine ⟨by simp [decisions], ?_, hf ▸ q2⟩
      simp only [List.cons_append, List.nil_append, decisions, List.mem_cons,
        List.mem_singleton, List.not_mem_nil, or_false]
      rintro x (rfl | rfl | rfl) <;> assumption
    have q3 := Q s3 (by rw [hs3, hs2, hs1, hs0]) (by rw [hs3, hs2, hs1, hs0])
      (by rw [hs3, hs2, hs1, hs0]) (by rw [hs3, hs2, hs1, hs0]) (by rw [hs3, hs2, hs1, hs0])
      (by rw [hs3, hs2, hs1, hs0])
    refine ⟨by simp [decisions], ?_, hf ▸ q3⟩
    simp only [List.cons_append, List.nil_append, decisions, List.mem_cons,
      List.mem_singleton, List.not_mem_nil, or_false]
    rintro x (rfl | rfl | rfl | rfl) <;> assumption

/-- C8 on the scenario's set-up, which has two rejected inputs, and on its hand.
-/
theorem C8_session_well_formed_witness :
    (1 ≤ scenarioGame.numOpponents ∧ scenarioGame.numOpponents ≤ 8 ∧
      (scenarioGame.opponentPots.length : Int) = scenarioGame.numOpponents ∧
      0 ≤ scenarioGame.playerPot ∧ (∀ p ∈ scenarioGame.opponentPots, 0 ≤ p) ∧
      0 ≤ scenarioGame.smallBlind ∧ 0 ≤ scenarioGame.bigBlind) ∧
    (decisions handTrace ≠ [] ∧
      (∀ x ∈ decisions handTrace,
        (x.1.opponentCalls.length : Int) = scenarioGame.numOpponents ∧
        (∀ a ∈ x.1.opponentCalls, 0 ≤ a) ∧ 0 ≤ x.1.playerPot ∧
        x.1.numOpponents = scenarioGame.numOpponents ∧
        x.1.opponentPots = scenarioGame.opponentPots ∧
        x.1.smallBlind = scenarioGame.smallBlind ∧ x.1.bigBlind = scenarioGame.bigBlind) ∧
      (scenarioTurn.opponentCalls.length : Int) = scenarioGame.numOpponents ∧
      (∀ a ∈ scenarioTurn.opponentCalls, 0 ≤ a) ∧ 0 ≤ scenarioTurn.playerPot ∧
      scenarioTurn.numOpponents = scenarioGame.numOpponents ∧
      scenarioTurn.opponentPots = scenarioGame.opponentPots ∧
      scenarioTurn.smallBlind = scenarioGame.smallBlind ∧
      scenarioTurn.bigBlind = scenarioGame.bigBlind) :=
  ⟨(C8_session_well_formed digitsNumGet scenarioRand 2 blankGame
      { cin := setupInput, randCalls := 0, log := [] }).1
      (scenarioGame, { cin := ['\n'], randCalls := 0,
                       log := [Event.cardRejected ['1', 'H'], Event.cardAccepted ['A', 'H'],
                               Event.cardAccepted ['K', 'S']] })
      (by decide!),
   (C8_session_well_formed digitsNumGet scenarioRand 1 scenarioGame handWorld).2
      (scenarioTurn, { cin := ['\n'], randCalls := 3, log := handTrace }) handTrace
      (by decide) (by decide!) (by decide!)⟩

/-! ## The claims about `getValidCard` -/

/-- C6: when `getValidCard` returns, the string returned is the uppercase form
of a white-space separated token of the input, it is one of the ranks followed
by one of the suits (so `isValidCard` holds of it and uppercasing leaves it
unchanged), and the tokens examined before it, which are all the earlier events
of the call, were each the uppercase form of a token of the input that
`isValidCard` rejected.  What it returns does not depend on the bound on its
iterations, once the bound is large enough for it to return.  Hence the hole
cards that `setupGame` and `playHand` store are valid, and so are the first
`communityCardCount` community cards after `playHand`. -/
theorem C6_getValidCard_returns_valid_uppercase :
    (∀ (fuel : Nat) (w : World) (r : List Char × World) (ev : List Event),
      getValidCard fuel w = some r → r.2.log = w.log ++ ev →
        isValidCard r.1 = true ∧ r.1.map Char.toUpper = r.1 ∧
        (∃ rank suit, r.1 = [rank, suit] ∧ rank ∈ ranks ∧ suit ∈ suits) ∧
        (∃ tok, IsToken w.cin tok ∧ r.1 = tok.map Char.toUpper) ∧
        ev = (rejectedTokens ev).map Event.cardRejected ++ [Event.cardAccepted r.1] ∧
        (∀ t ∈ rejectedTokens ev, isValidCard t = false ∧
          ∃ tok, IsToken w.cin tok ∧ t = tok.map Char.toUpper)) ∧
    (∀ (fuel bound : Nat) (w : World) (r : List Char × World),
      getValidCard fuel w = some r → fuel ≤ bound → getValidCard bound w = some r) ∧
    (∀ (N : NumGet) (fuel : Nat) (self : PokerMLInterface) (w : World)
        (r : PokerMLInterface × World), setupGame N fuel self w = some r →
        ∀ c ∈ r.1.playerHand.toList, isValidCard c = true) ∧
    (∀ (N : NumGet) (rand : Nat → Nat) (fuel : Nat) (self : PokerMLInterface) (w : World)
        (r : PokerMLInterface × World), playHand N rand fuel self w = some r →
        (∀ c ∈ r.1.playerHand.toList, isValidCard c = true) ∧
        (∀ c ∈ r.1.communityCards.toList.take r.1.communityCardCount.toNat,
          isValidCard c = true)) := by
  refine ⟨?_, fun fuel bound w r h hle => getValidCard_mono h hle, ?_, ?_⟩
  · intro fuel w r ev h hl
    obtain ⟨hv, -, toks, tok, htok, hT, hrej, hlog⟩ :=
      getValidCardLoop_spec fuel [] w r (by decide) h
    have hev : ev = toks.map (fun t => Event.cardRejected (t.map Char.toUpper)) ++
        [Event.cardAccepted r.1] := by
      rw [List.append_assoc] at hlog
      exact List.append_cancel_left (hl.symm.trans hlog)
    have hr : rejectedTokens ev = toks.map (List.map Char.toUpper) := by
      rw [hev, rejectedTokens_append, rejectedTokens_map]
      simp [rejectedTokens]
    have hup : r.1.map Char.toUpper = r.1 := by
      rw [htok]
      simp [List.map_map, toUpper_toUpper, Function.comp_def]
    refine ⟨hv, hup, ?_, ⟨tok, hT, htok⟩, ?_, ?_⟩
    · obtain ⟨a, b, hab, ha, hb⟩ := (isValidCard_iff r.1).1 hv
      rw [hab] at hup
      simp only [List.map_cons, List.map_nil, List.cons.injEq, and_true] at hup
      exact ⟨a, b, hab, hup.1 ▸ ha, hup.2 ▸ hb⟩
    · rw [hr, List.map_map]
      exact hev
    · intro t ht
      rw [hr] at ht
      obtain ⟨t0, ht0, rfl⟩ := List.mem_map.1 ht
      exact ⟨(hrej t0 ht0).2, t0, (hrej t0 ht0).1, rfl⟩
  · intro N fuel self w r h
    obtain ⟨⟨c0, c1, pot, n, pots, sb, bb, v0, v1, -, -, -, -, -, -, -, hr⟩, -⟩ :=
      setupGame_spec h
    rw [hr]
    show ∀ c ∈ ((self.playerHand.set 0 c0).set 1 c1).toList, isValidCard c = true
    rw [hand_toList]
    intro c hc
    simp only [List.mem_cons, List.mem_singleton, List.not_mem_nil, or_false] at hc
    rcases hc with rfl | rfl <;> assumption
  · intro N rand fuel self w r h
    obtain ⟨L, k, -, H⟩ := playHand_run h
    obtain ⟨h0, h1, pot, calls, rest, v0, v1, -, -, -, -, R⟩ := H
    have hand : ∀ s : PokerMLInterface,
        s.playerHand = (self.playerHand.set 0 h0).set 1 h1 →
        ∀ c ∈ s.playerHand.toList, isValidCard c = true := by
      intro s e c hc
      rw [e, hand_toList] at hc
      simp only [List.mem_cons, List.mem_singleton, List.not_mem_nil, or_false] at hc
      rcases hc with rfl | rfl <;> assumption
    obtain ⟨s0, d0, hs0, -, R⟩ := R.cases
    rcases R with ⟨-, -, hf, -⟩ | ⟨-, c0, c1, c2, s1, d1, v0, v1, v2, hs1, -, R⟩
    · refine ⟨hand _ (by rw [hf, hs0]), ?_⟩
      have : r.1.communityCardCount = 0 := by rw [hf, hs0]
      rw [this]
      simp
    rcases R with ⟨-, -, hf, -⟩ | ⟨-, c3, s2, d2, v3, hs2, -, R⟩
    · refine ⟨hand _ (by rw [hf, hs1, hs0]), ?_⟩
      have e : r.1.communityCardCount = 3 := by rw [hf, hs1]
      have e' : r.1.communityCards.toList.take 3 = [c0, c1, c2] := by
        rw [hf, hs1]; exact board_take3 _ _ _ _
      rw [e, show (3 : Int).toNat = 3 from rfl, e']
      intro c hc
      simp only [List.mem_cons, List.mem_singleton, List.not_mem_nil, or_false] at hc
      rcases hc with rfl | rfl | rfl <;> assumption
    rcases R with ⟨-, -, hf, -⟩ | ⟨-, c4, s3, d3, v4, hs3, -, -, hf, -⟩
    · refine ⟨hand _ (by rw [hf, hs2, hs1, hs0]), ?_⟩
      have e : r.1.communityCardCount = 4 := by rw [hf, hs2]
      have e' : r.1.communityCards.toList.take 4 = [c0, c1, c2, c3] := by
        rw [hf, hs2, hs1]; exact board_take4 _ _ _ _ _
      rw [e, show (4 : Int).toNat = 4 from rfl, e']
      intro c hc
      simp only [List.mem_cons, List.mem_singleton, List.not_mem_nil, or_false] at hc
      rcases hc with rfl | rfl | rfl | rfl <;> assumption
    · refine ⟨hand _ (by rw [hf, hs3, hs2, hs1, hs0]), ?_⟩
      have e : r.1.communityCardCount = 5 := by rw [hf, hs3]
      have e' : r.1.communityCards.toList = [c0, c1, c2, c3, c4] := by
        rw [hf, hs3, hs2, hs1]; exact board_toList _ _ _ _ _ _
      rw [e, show (5 : Int).toNat = 5 from rfl, e']
      intro c hc
      simp only [List.take, List.mem_cons, List.mem_singleton, List.not_mem_nil,
        or_false] at hc
      rcases hc with rfl | rfl | rfl | rfl | rfl <;> assumption

/-- C6 on an input with two rejected tokens, and on the scenario. -/
theorem C6_getValidCard_returns_valid_uppercase_witness :
    (isValidCard ['A', 'H'] = true ∧ ['A', 'H'].map Char.toUpper = ['A', 'H'] ∧
      (∃ rank suit, ['A', 'H'] = [rank, suit] ∧ rank ∈ ranks ∧ suit ∈ suits) ∧
      (∃ tok, IsToken retryWorld.cin tok ∧ ['A', 'H'] = tok.map Char.toUpper) ∧
      retryTrace = (rejectedTokens retryTrace).map Event.cardRejected ++
        [Event.cardAccepted ['A', 'H']] ∧
      (∀ t ∈ rejectedTokens retryTrace, isValidCard t = false ∧
        ∃ tok, IsToken retryWorld.cin tok ∧ t = tok.map Char.toUpper)) ∧
    getValidCard 40 retryWorld =
      some (['A', 'H'], { cin := [' ', 'k', 's', '\n'], randCalls := 0, log := retryTrace }) ∧
    (∀ c ∈ scenarioGame.playerHand.toList, isValidCard c = true) ∧
    ((∀ c ∈ scenarioTurn.playerHand.toList, isValidCard c = true) ∧
      (∀ c ∈ scenarioTurn.communityCards.toList.take scenarioTurn.communityCardCount.toNat,
        isValidCard c = true)) :=
  ⟨C6_getValidCard_returns_valid_uppercase.1 3 retryWorld
      (['A', 'H'], { cin := [' ', 'k', 's', '\n'], randCalls := 0, log := retryTrace })
      retryTrace (by decide!) (by decide!),
   C6_getValidCard_returns_valid_uppercase.2.1 3 40 retryWorld
      (['A', 'H'], { cin := [' ', 'k', 's', '\n'], randCalls := 0, log := retryTrace })
      (by decide!) (by decide),
   C6_getValidCard_returns_valid_uppercase.2.2.1 digitsNumGet 2 blankGame
      { cin := setupInput, randCalls := 0, log := [] }
      (scenarioGame, { cin := ['\n'], randCalls := 0,
                       log := [Event.cardRejected ['1', 'H'], Event.cardAccepted ['A', 'H'],
                               Event.cardAccepted ['K', 'S']] })
      (by decide!),
   C6_getValidCard_returns_valid_uppercase.2.2.2 digitsNumGet scenarioRand 1 scenarioGame
      handWorld (scenarioTurn, { cin := ['\n'], randCalls := 3, log := handTrace })
      (by decide!)⟩

/-! ## The claim about duplicate cards -/

/-- C9: `getValidCard` never rejects a card for being held already.  The card
it returns and the input it leaves depend on the unread input alone, not on the
trace of cards accepted before (and the function is not given the object, so
not on `playerHand` or `communityCards` either); a valid token at the head of
the input is accepted at the first attempt.  So a hand whose input gives one
valid token `tok` as both hole cards and as all five community cards runs to
the end without any rejection, and leaves the uppercase of `tok` in both entries
of `playerHand` and in all five entries of `communityCards`. -/
theorem C9_duplicate_cards_accepted :
    (∀ (fuel : Nat) (w1 w2 : World), w1.cin = w2.cin →
      (getValidCard fuel w1).map (fun r => (r.1, r.2.cin)) =
        (getValidCard fuel w2).map (fun r => (r.1, r.2.cin))) ∧
    (∀ (fuel : Nat) (w : World) (tok rest : List Char),
      isValidCard (tok.map Char.toUpper) = true → w.cin = tok ++ '\n' :: rest →
      getValidCard (fuel + 1) w =
        some (tok.map Char.toUpper,
          { w with cin := '\n' :: rest,
                   log := w.log ++ [Event.cardAccepted (tok.map Char.toUpper)] })) ∧
    (∀ (N : NumGet) (rand : Nat → Nat) (fuel : Nat) (self : PokerMLInterface) (w : World)
        (tok : List Char),
      (∀ rest, N.extractDouble ('\n' :: '0' :: '\n' :: rest) = (some 0, '\n' :: rest)) →
      isValidCard (tok.map Char.toUpper) = true →
      (∀ j, j < 3 → ∀ s, (getMLDecision s (rand (w.randCalls + j))).action ≠ "FOLD") →
      w.cin = dupInput tok self.numOpponents.toNat →
      ∃ r ev, playHand N rand (fuel + 1) self w = some r ∧ r.2.log = w.log ++ ev ∧
        rejectedTokens ev = [] ∧
        acceptedCards ev = List.replicate 7 (tok.map Char.toUpper) ∧
        r.1.playerHand.toList = List.replicate 2 (tok.map Char.toUpper) ∧
        r.1.communityCards.toList = List.replicate 5 (tok.map Char.toUpper)) := by
  refine ⟨fun fuel w1 w2 h => getValidCardLoop_cin fuel [] w1 w2 h, ?_, ?_⟩
  · intro fuel w tok rest hv hcin
    exact getValidCard_of_token fuel w [] tok rest (by simp) hv (by simpa using hcin)
  · intro N rand fuel self w tok hN hv hno hcin
    have hv5 : ∀ t ∈ List.replicate 5 tok, isValidCard (t.map Char.toUpper) = true := by
      intro t ht
      rw [List.eq_of_mem_replicate ht]
      exact hv
    have h1 := getValidCard_of_token fuel (assignCount 0 self w).2 [] tok
      (tok ++ '\n' :: (zeros (self.numOpponents.toNat + 1) ++ feed (List.replicate 5 tok)))
      (by simp) hv (by simp [assignCount, hcin, dupInput, feed])
    have h2 := getValidCard_of_token fuel
      { (assignCount 0 self w).2 with
        cin := '\n' :: (tok ++ '\n' ::
          (zeros (self.numOpponents.toNat + 1) ++ feed (List.replicate 5 tok))),
        log := (assignCount 0 self w).2.log ++ [Event.cardAccepted (tok.map Char.toUpper)] }
      ['\n'] tok (zeros (self.numOpponents.toNat + 1) ++ feed (List.replicate 5 tok))
      (by simp [isspace]) hv (by simp)
    have h3 := getValidAmount_zero hN fuel
      { (assignCount 0 self w).2 with
        cin := '\n' :: (zeros (self.numOpponents.toNat + 1) ++ feed (List.replicate 5 tok)),
        log := (assignCount 0 self w).2.log ++ [Event.cardAccepted (tok.map Char.toUpper)] ++
          [Event.cardAccepted (tok.map Char.toUpper)] }
      (zeros self.numOpponents.toNat ++ feed (List.replicate 5 tok)) rfl
    have h4 := collectAmounts_zeros hN fuel (feed (List.replicate 5 tok))
      self.numOpponents.toNat []
      { (assignCount 0 self w).2 with
        cin := '\n' :: (zeros self.numOpponents.toNat ++ feed (List.replicate 5 tok)),
        log := (assignCount 0 self w).2.log ++ [Event.cardAccepted (tok.map Char.toUpper)] ++
          [Event.cardAccepted (tok.map Char.toUpper)] }
      rfl
    obtain ⟨r, ev, hr, hl, hno', hrej, hacc⟩ := playBettingRounds_full_fed rand fuel
      ({ self with
        communityCardCount := 0,
        opponentCalls := [] ++ List.replicate self.numOpponents.toNat 0,
        playerHand := (self.playerHand.set 0 (tok.map Char.toUpper)).set 1
          (tok.map Char.toUpper),
        playerPot := 0 })
      ({ (assignCount 0 self w).2 with
        cin := '\n' :: feed (List.replicate 5 tok),
        log := (assignCount 0 self w).2.log ++ [Event.cardAccepted (tok.map Char.toUpper)] ++
          [Event.cardAccepted (tok.map Char.toUpper)] })
      hno hv5 (by simp) ⟨['\n'], by simp [isspace], rfl⟩
    obtain ⟨full, hand⟩ := playBettingRounds_full hr hl hno'
    refine ⟨r, [Event.countAssigned 0, Event.cardAccepted (tok.map Char.toUpper),
      Event.cardAccepted (tok.map Char.toUpper)] ++ ev, ?_, ?_, ?_, ?_, ?_, ?_⟩
    · have e1 : (assignCount 0 self w).1.numOpponents = self.numOpponents := rfl
      simp only [playHand, h1, h2, h3, e1, h4, Option.some_bind]
      exact hr
    · rw [hl]
      simp [assignCount]
    · rw [rejectedTokens_append, hrej]
      rfl
    · rw [acceptedCards_append, hacc]
      simp [acceptedCards, List.replicate]
    · rw [hand]
      exact hand_toList _ _ _
    · rw [full.2.2.2.2.2.2.1, hacc]
      simp

/-- C9 on a hand in which every card is `ah`. -/
theorem C9_duplicate_cards_accepted_witness :
    ((getValidCard 1 { cin := ['a', 'h', '\n'], randCalls := 0,
                       log := [Event.cardAccepted ['A', 'H']] }).map (fun r => (r.1, r.2.cin)) =
      (getValidCard 1 { cin := ['a', 'h', '\n'], randCalls := 0, log := [] }).map
        (fun r => (r.1, r.2.cin))) ∧
    getValidCard (0 + 1) { cin := ['a', 'h', '\n'], randCalls := 0,
                           log := [Event.cardAccepted ['A', 'H']] } =
      some (['a', 'h'].map Char.toUpper,
        { cin := ['\n'], randCalls := 0,
          log := [Event.cardAccepted ['A', 'H']] ++
            [Event.cardAccepted (['a', 'h'].map Char.toUpper)] }) ∧
    ∃ r ev, playHand digitsNumGet callRand (0 + 1) scenarioGame dupWorld = some r ∧
      r.2.log = dupWorld.log ++ ev ∧ rejectedTokens ev = [] ∧
      acceptedCards ev = List.replicate 7 (['a', 'h'].map Char.toUpper) ∧
      r.1.playerHand.toList = List.replicate 2 (['a', 'h'].map Char.toUpper) ∧
      r.1.communityCards.toList = List.replicate 5 (['a', 'h'].map Char.toUpper) :=
  ⟨C9_duplicate_cards_accepted.1 1
      { cin := ['a', 'h', '\n'], randCalls := 0, log := [Event.cardAccepted ['A', 'H']] }
      { cin := ['a', 'h', '\n'], randCalls := 0, log := [] } rfl,
   C9_duplicate_cards_accepted.2.1 0
      { cin := ['a', 'h', '\n'], randCalls := 0, log := [Event.cardAccepted ['A', 'H']] }
      ['a', 'h'] [] (by decide) rfl,
   C9_duplicate_cards_accepted.2.2 digitsNumGet callRand 0 scenarioGame dupWorld ['a', 'h']
      (fun _ => rfl) (by decide)
      (fun j _ s => by rw [Ne, action_fold_iff]; simp [callRand]) (by decide)⟩

end PokerMLInterface
